import Mathlib

/-!
Verification of the firegraph caching middleware
(src/unnamed/part_000: createLRUCache, isPersistedQuery, hashPostBody,
extractCacheKey, removeExtensions, sendContent, getFromCacheIfAny,
storeInCache).

The middleware is shallowly embedded: JavaScript JSON values are an
inductive type with a JSON.parse model (fueled recursive-descent parser)
and a JSON.stringify model; the express request/response interaction is
modelled as a list of effects (setHeader / write / end / next); a thrown
JavaScript exception is an Except.error; Date.now() is an explicit
integer parameter; the lru-cache store is an association list of records
with insertion time and optional TTL, read through the createLRUCache
wrapper semantics.

Modelling notes, applying to corners no claim depends on:
 - JSON numbers are modelled as integers: the parser rejects fraction and
   exponent forms and the middleware under test only ever produces and
   consumes integral numbers (timestamps, durations, maxAge hints).
 - a \u escape denoting a surrogate code unit is rejected by the parser
   (Lean strings cannot hold lone surrogates).
 - a cached value whose duration or at field is not a number, or whose
   payload field is not a string, is modelled as a thrown error: in
   JavaScript these shapes (never produced by storeInCache) would reach
   res.write with a non-string argument and throw there.
 - the float arithmetic of the remaining-freshness computation is
   modelled exactly over the rationals, with Math.round as the floor of
   the argument plus one half (its behavior on every non-NaN input).
-/

set_option maxHeartbeats 4000000
set_option maxRecDepth 10000

namespace Firegraph

/-! ## JavaScript JSON values -/

/-- A JavaScript JSON value. Numbers are modelled as integers (see the
module comment). -/
inductive Json where
  | null : Json
  | bool (b : Bool) : Json
  | num (n : Int) : Json
  | str (s : String) : Json
  | arr (xs : List Json) : Json
  | obj (fs : List (String × Json)) : Json

/-! ## Decimal printing of numbers, as JavaScript prints integral numbers -/

/-- Fueled accumulator loop producing the decimal digits of a natural
number, most significant first. -/
def natStrAux : Nat → Nat → List Char → List Char
  | 0, _, acc => acc
  | f + 1, n, acc =>
    let acc2 := Char.ofNat (48 + n % 10) :: acc
    if n < 10 then acc2 else natStrAux f (n / 10) acc2

/-- Decimal digits of a natural number. -/
def natStrChars (n : Nat) : List Char := natStrAux (n + 1) n []

/-- Decimal representation of an integer, as JavaScript String(n) prints
an integral number. -/
def intStrChars (i : Int) : List Char :=
  if i < 0 then '-' :: natStrChars i.natAbs else natStrChars i.natAbs

/-- Decimal representation of an integer as a string. -/
def intStr (i : Int) : String := String.mk (intStrChars i)

/-! ## JSON.stringify -/

/-- Lower-case hexadecimal digit, as used by JSON.stringify \u escapes. -/
def hexChar (k : Nat) : Char :=
  Char.ofNat (if k < 10 then 48 + k else 87 + k)

/-- Two lower-case hexadecimal digits of a byte value. -/
def hex2 (n : Nat) : List Char := [hexChar (n / 16), hexChar (n % 16)]

/-- JSON.stringify escaping of one character inside a string literal:
quote and backslash are escaped, control characters use the short escapes
b, t, n, f, r or a two-digit unicode escape, everything else is emitted
verbatim. -/
def escChar (c : Char) : List Char :=
  if c = '"' then ['\\', '"']
  else if c = '\\' then ['\\', '\\']
  else if c = Char.ofNat 8 then ['\\', 'b']
  else if c = Char.ofNat 9 then ['\\', 't']
  else if c = Char.ofNat 10 then ['\\', 'n']
  else if c = Char.ofNat 12 then ['\\', 'f']
  else if c = Char.ofNat 13 then ['\\', 'r']
  else if c.toNat < 32 then '\\' :: 'u' :: '0' :: '0' :: hex2 c.toNat
  else [c]

/-- JSON.stringify escaping of a character sequence. -/
def escList (cs : List Char) : List Char := cs.flatMap escChar

mutual

/-- JSON.stringify of a value: no whitespace, object fields in insertion
order, strings escaped with escChar. -/
def stringifyChars : Json → List Char
  | .null => ("null" : String).data
  | .bool true => ("true" : String).data
  | .bool false => ("false" : String).data
  | .num i => intStrChars i
  | .str s => '"' :: (escList s.data ++ ['"'])
  | .arr [] => ['[', ']']
  | .arr (x :: xs) => '[' :: (stringifyChars x ++ arrTailChars xs)
  | .obj [] => ['\x7b', '\x7d']
  | .obj (f :: fs) => '\x7b' :: (fieldChars f ++ objTailChars fs)

/-- Remaining elements of an array being stringified. -/
def arrTailChars : List Json → List Char
  | [] => [']']
  | x :: xs => ',' :: (stringifyChars x ++ arrTailChars xs)

/-- Remaining fields of an object being stringified. -/
def objTailChars : List (String × Json) → List Char
  | [] => ['\x7d']
  | f :: fs => ',' :: (fieldChars f ++ objTailChars fs)

/-- One key-value pair of an object being stringified. -/
def fieldChars : String × Json → List Char
  | (k, v) => '"' :: (escList k.data ++ ('"' :: ':' :: stringifyChars v))

end

/-- JSON.stringify. -/
def jsonStringify (j : Json) : String := String.mk (stringifyChars j)

/-! ## JSON.parse -/

/-- JSON whitespace (space, tab, line feed, carriage return), tested on
the character code. -/
def isJsonWs (c : Char) : Bool :=
  c.toNat == 32 || c.toNat == 9 || c.toNat == 10 || c.toNat == 13

/-- Skip JSON whitespace. -/
def skipWs (cs : List Char) : List Char := cs.dropWhile isJsonWs

/-- Value of a hexadecimal digit character. -/
def hexDigitVal (c : Char) : Option Nat :=
  if '0' ≤ c ∧ c ≤ '9' then some (c.toNat - 48)
  else if 'a' ≤ c ∧ c ≤ 'f' then some (c.toNat - 87)
  else if 'A' ≤ c ∧ c ≤ 'F' then some (c.toNat - 55)
  else none

/-- Prepend a decoded character to a string-body parse result. -/
def consStr (c : Char) (o : Option (List Char × List Char)) :
    Option (List Char × List Char) :=
  o.map (fun p => (c :: p.1, p.2))

/-- Parse the body of a JSON string literal after the opening quote,
returning the decoded characters and the input after the closing quote.
The first argument is fuel; one unit is spent per consumed character, so
fuel exceeding the input length never runs out. -/
def parseStrChars : Nat → List Char → Option (List Char × List Char)
  | 0, _ => none
  | _ + 1, [] => none
  | f + 1, c :: r =>
    if c = '"' then some ([], r)
    else if c = '\\' then
      match r with
      | [] => none
      | e :: r2 =>
        if e = '"' then consStr '"' (parseStrChars f r2)
        else if e = '\\' then consStr '\\' (parseStrChars f r2)
        else if e = '/' then consStr '/' (parseStrChars f r2)
        else if e = 'b' then consStr (Char.ofNat 8) (parseStrChars f r2)
        else if e = 'f' then consStr (Char.ofNat 12) (parseStrChars f r2)
        else if e = 'n' then consStr '\n' (parseStrChars f r2)
        else if e = 'r' then consStr '\r' (parseStrChars f r2)
        else if e = 't' then consStr '\t' (parseStrChars f r2)
        else if e = 'u' then
          match r2 with
          | h1 :: h2 :: h3 :: h4 :: r3 =>
            match hexDigitVal h1, hexDigitVal h2, hexDigitVal h3, hexDigitVal h4 with
            | some a, some b, some c2, some d =>
              let code := a * 4096 + b * 256 + c2 * 16 + d
              if code < 55296 ∨ 57343 < code then
                consStr (Char.ofNat code) (parseStrChars f r3)
              else none
            | _, _, _, _ => none
          | _ => none
        else none
    else if c.toNat < 32 then none
    else consStr c (parseStrChars f r)

/-- Numeric value of a list of decimal digit characters. -/
def digitsToNat (ds : List Char) : Nat :=
  ds.foldl (fun a c => a * 10 + (c.toNat - 48)) 0

/-- Parse a JSON natural number literal: a nonempty digit run with no
leading zero (except the literal 0 itself). -/
def parseNatNum (cs : List Char) : Option (Nat × List Char) :=
  let ds := cs.takeWhile Char.isDigit
  if ds = [] then none
  else if 1 < ds.length ∧ ds.head? = some '0' then none
  else some (digitsToNat ds, cs.dropWhile Char.isDigit)

/-- Parse a JSON integer literal with optional leading minus sign. -/
def parseNumFrom : List Char → Option (Json × List Char)
  | [] => none
  | c :: r =>
    if c = '-' then (parseNatNum r).map (fun p => (Json.num (-(p.1 : Int)), p.2))
    else (parseNatNum (c :: r)).map (fun p => (Json.num (p.1 : Int), p.2))

/-- Insert a field into an object under JavaScript duplicate-key
semantics: an existing key keeps its position and gets the new value,
a new key is appended. -/
def objSet (fs : List (String × Json)) (k : String) (v : Json) :
    List (String × Json) :=
  if fs.any (fun p => p.1 == k) then fs.map (fun p => if p.1 == k then (k, v) else p)
  else fs ++ [(k, v)]

/-- Apply JavaScript duplicate-key semantics to a parsed field list. -/
def dedupFields (fs : List (String × Json)) : List (String × Json) :=
  fs.foldl (fun acc p => objSet acc p.1 p.2) []

mutual

/-- Parse one JSON value. The first argument is fuel; callers supply
more fuel than the input length so it never runs out on valid input. -/
def parseVal : Nat → List Char → Option (Json × List Char)
  | 0, _ => none
  | f + 1, cs =>
    match skipWs cs with
    | [] => none
    | c :: r =>
      if c = '"' then
        (parseStrChars (r.length + 1) r).map (fun p => (Json.str (String.mk p.1), p.2))
      else if c = '\x7b' then
        match skipWs r with
        | [] => none
        | c2 :: r2 =>
          if c2 = '\x7d' then some (Json.obj [], r2)
          else (parseFields f (c2 :: r2)).map (fun p => (Json.obj (dedupFields p.1), p.2))
      else if c = '[' then
        match skipWs r with
        | [] => none
        | c2 :: r2 =>
          if c2 = ']' then some (Json.arr [], r2)
          else (parseElems f (c2 :: r2)).map (fun p => (Json.arr p.1, p.2))
      else if c = 'n' then
        if r.take 3 = ['u', 'l', 'l'] then some (Json.null, r.drop 3) else none
      else if c = 't' then
        if r.take 3 = ['r', 'u', 'e'] then some (Json.bool true, r.drop 3) else none
      else if c = 'f' then
        if r.take 4 = ['a', 'l', 's', 'e'] then some (Json.bool false, r.drop 4) else none
      else if c = '-' ∨ c.isDigit then parseNumFrom (c :: r)
      else none

/-- Parse the comma-separated elements of a nonempty array up to and
including the closing bracket. -/
def parseElems : Nat → List Char → Option (List Json × List Char)
  | 0, _ => none
  | f + 1, cs =>
    match parseVal f cs with
    | none => none
    | some (j, r) =>
      match skipWs r with
      | [] => none
      | c :: r2 =>
        if c = ',' then (parseElems f r2).map (fun p => (j :: p.1, p.2))
        else if c = ']' then some ([j], r2)
        else none

/-- Parse the comma-separated fields of a nonempty object up to and
including the closing brace. -/
def parseFields : Nat → List Char → Option (List (String × Json) × List Char)
  | 0, _ => none
  | f + 1, cs =>
    match skipWs cs with
    | [] => none
    | c :: r =>
      if c = '"' then
        match parseStrChars (r.length + 1) r with
        | none => none
        | some (k, r1) =>
          match skipWs r1 with
          | [] => none
          | c2 :: r2 =>
            if c2 = ':' then
              match parseVal f r2 with
              | none => none
              | some (v, r3) =>
                match skipWs r3 with
                | [] => none
                | c3 :: r4 =>
                  if c3 = ',' then
                    (parseFields f r4).map (fun p => ((String.mk k, v) :: p.1, p.2))
                  else if c3 = '\x7d' then some ([(String.mk k, v)], r4)
                  else none
            else none
      else none

end

/-- JSON.parse: none models a thrown SyntaxError. -/
def jsonParse (s : String) : Option Json :=
  match parseVal (2 * s.length + 2) s.data with
  | some (j, r) => if skipWs r = [] then some j else none
  | none => none

/-! ## JavaScript value helpers -/

/-- JavaScript truthiness of a JSON value. -/
def jsTruthy : Json → Bool
  | .null => false
  | .bool b => b
  | .num n => !(n == 0)
  | .str s => !(s == "")
  | .arr _ => true
  | .obj _ => true

/-- Truthiness of a possibly-undefined value. -/
def jsTruthyOpt : Option Json → Bool
  | none => false
  | some j => jsTruthy j

/-- Truthiness of a possibly-undefined string field (undefined and the
empty string are falsy). -/
def strTruthy (o : Option String) : Bool := !(o.getD "" == "")

/-- First field with the given key, as JavaScript property lookup on an
object created by JSON.parse (whose keys are unique). -/
def jsLookup (fs : List (String × Json)) (k : String) : Option Json :=
  match fs.find? (fun p => p.1 == k) with
  | some p => some p.2
  | none => none

/-- Property access on a JSON value known not to be null: objects look
the key up, primitives and arrays yield undefined. -/
def jsMemTotal (j : Json) (k : String) : Option Json :=
  match j with
  | .obj fs => jsLookup fs k
  | _ => none

/-- Property access on an arbitrary JSON value: access on null throws a
TypeError. -/
def jsMemberE (j : Json) (k : String) : Except String (Option Json) :=
  match j with
  | .null => .error "TypeError"
  | .obj fs => .ok (jsLookup fs k)
  | _ => .ok none

/-- Property access on a possibly-undefined base that is known truthy
when defined (as in the guarded access extensions && extensions.cacheControl). -/
def optMem (o : Option Json) (k : String) : Option Json :=
  match o with
  | some j => jsMemTotal j k
  | none => none

mutual

/-- JavaScript template-literal coercion String(v) of a JSON value. -/
def jsTemplateVal : Json → String
  | .null => "null"
  | .bool true => "true"
  | .bool false => "false"
  | .num n => intStr n
  | .str s => s
  | .arr [] => ""
  | .arr (x :: xs) => jsTemplateElem x ++ jsTemplateTail xs
  | .obj _ => "[object Object]"

/-- Array element in a join: null elements become the empty string. -/
def jsTemplateElem : Json → String
  | .null => ""
  | j => jsTemplateVal j

/-- Remaining elements of an array join. -/
def jsTemplateTail : List Json → String
  | [] => ""
  | x :: xs => "," ++ jsTemplateElem x ++ jsTemplateTail xs

end

/-- Template coercion of a possibly-undefined value, as in a template
literal: undefined prints as the string undefined. -/
def jsTemplate : Option Json → String
  | none => "undefined"
  | some j => jsTemplateVal j

/-! ## SHA-256 (as used through hash.js by hashPostBody) -/

/-- Reduction to a 32-bit word. -/
def w32 (n : Nat) : Nat := n % 4294967296

/-- Right rotation of a 32-bit word. -/
def rotr32 (k x : Nat) : Nat := w32 (x / 2 ^ k + x * 2 ^ (32 - k))

/-- Bitwise complement of a 32-bit word. -/
def not32 (x : Nat) : Nat := Nat.xor x 4294967295

/-- SHA-256 big sigma 0. -/
def bSig0 (x : Nat) : Nat := Nat.xor (Nat.xor (rotr32 2 x) (rotr32 13 x)) (rotr32 22 x)

/-- SHA-256 big sigma 1. -/
def bSig1 (x : Nat) : Nat := Nat.xor (Nat.xor (rotr32 6 x) (rotr32 11 x)) (rotr32 25 x)

/-- SHA-256 small sigma 0. -/
def sSig0 (x : Nat) : Nat := Nat.xor (Nat.xor (rotr32 7 x) (rotr32 18 x)) (x / 2 ^ 3)

/-- SHA-256 small sigma 1. -/
def sSig1 (x : Nat) : Nat := Nat.xor (Nat.xor (rotr32 17 x) (rotr32 19 x)) (x / 2 ^ 10)

/-- SHA-256 round constants (decimal renderings of the standard values). -/
def sha256K : List Nat :=
  [1116352408, 1899447441, 3049323471, 3921009573,
   961987163, 1508970993, 2453635748, 2870763221,
   3624381080, 310598401, 607225278, 1426881987,
   1925078388, 2162078206, 2614888103, 3248222580,
   3835390401, 4022224774, 264347078, 604807628,
   770255983, 1249150122, 1555081692, 1996064986,
   2554220882, 2821834349, 2952996808, 3210313671,
   3336571891, 3584528711, 113926993, 338241895,
   666307205, 773529912, 1294757372, 1396182291,
   1695183700, 1986661051, 2177026350, 2456956037,
   2730485921, 2820302411, 3259730800, 3345764771,
   3516065817, 3600352804, 4094571909, 275423344,
   430227734, 506948616, 659060556, 883997877,
   958139571, 1322822218, 1537002063, 1747873779,
   1955562222, 2024104815, 2227730452, 2361852424,
   2428436474, 2756734187, 3204031479, 3329325298]

/-- SHA-256 initial hash state (decimal renderings of the standard values). -/
def sha256H0 : List Nat :=
  [1779033703, 3144134277, 1013904242, 2773480762,
   1359893119, 2600822924, 528734635, 1541459225]

/-- Working state of the SHA-256 compression function. -/
structure Sha8 where
  a : Nat
  b : Nat
  c : Nat
  d : Nat
  e : Nat
  f : Nat
  g : Nat
  h : Nat

/-- One SHA-256 compression round with round constant k and schedule
word w. -/
def shaRound (s : Sha8) (kw : Nat × Nat) : Sha8 :=
  let t1 := s.h + bSig1 s.e + (Nat.xor (s.e &&& s.f) (not32 s.e &&& s.g)) + kw.1 + kw.2
  let t2 := bSig0 s.a + (Nat.xor (Nat.xor (s.a &&& s.b) (s.a &&& s.c)) (s.b &&& s.c))
  ⟨w32 (t1 + t2), s.a, s.b, s.c, w32 (s.d + t1), s.e, s.f, s.g⟩

/-- Append one schedule word to a message schedule prefix. -/
def schedStep (ws : List Nat) : List Nat :=
  ws ++ [w32 (sSig1 (ws.getD (ws.length - 2) 0) + ws.getD (ws.length - 7) 0 +
              sSig0 (ws.getD (ws.length - 15) 0) + ws.getD (ws.length - 16) 0)]

/-- Extend a 16-word block by the given number of schedule words. -/
def extendSched : Nat → List Nat → List Nat
  | 0, ws => ws
  | k + 1, ws => extendSched k (schedStep ws)

/-- Process one 16-word block into the running hash state. -/
def shaBlock (hs : List Nat) (block : List Nat) : List Nat :=
  let ws := extendSched 48 block
  let s0 : Sha8 := ⟨hs.getD 0 0, hs.getD 1 0, hs.getD 2 0, hs.getD 3 0,
                    hs.getD 4 0, hs.getD 5 0, hs.getD 6 0, hs.getD 7 0⟩
  let s := (sha256K.zip ws).foldl shaRound s0
  [w32 (hs.getD 0 0 + s.a), w32 (hs.getD 1 0 + s.b), w32 (hs.getD 2 0 + s.c),
   w32 (hs.getD 3 0 + s.d), w32 (hs.getD 4 0 + s.e), w32 (hs.getD 5 0 + s.f),
   w32 (hs.getD 6 0 + s.g), w32 (hs.getD 7 0 + s.h)]

/-- Big-endian bytes of a number, fixed width. -/
def beBytes : Nat → Nat → List Nat
  | 0, _ => []
  | k + 1, n => beBytes k (n / 256) ++ [n % 256]

/-- Combine bytes into big-endian 32-bit words. -/
def bytesToWords : List Nat → List Nat
  | a :: b :: c :: d :: rest => (a * 16777216 + b * 65536 + c * 256 + d) :: bytesToWords rest
  | _ => []

/-- Split a word list into 16-word blocks. The first argument is fuel. -/
def chunk16 : Nat → List Nat → List (List Nat)
  | 0, _ => []
  | _ + 1, [] => []
  | f + 1, ws => ws.take 16 :: chunk16 f (ws.drop 16)

/-- SHA-256 padding: 0x80, zeros to 56 mod 64, 8-byte big-endian bit
length. -/
def shaPad (msg : List Nat) : List Nat :=
  msg ++ (128 :: List.replicate ((119 - msg.length % 64) % 64) 0) ++ beBytes 8 (msg.length * 8)

/-- SHA-256 digest of a byte list, as a lower-case hexadecimal string. -/
def sha256hex (msg : List Nat) : String :=
  let blocks := chunk16 (msg.length + 9) (bytesToWords (shaPad msg))
  let hs := blocks.foldl shaBlock sha256H0
  String.mk (hs.flatMap (fun wrd => (beBytes 4 wrd).flatMap
    (fun byte => hex2 byte)))

/-! ## hashPostBody (part_000 lines 58 to 67) -/

/-- The byte sequence hash.js feeds to SHA-256 for a string argument with
no encoding: each UTF-16 code unit contributes its low byte, preceded by
its high byte when that is nonzero; astral characters contribute their
surrogate pair code units. -/
def hashjsUnits (c : Char) : List Nat :=
  let n := c.toNat
  if n < 256 then [n]
  else if n < 65536 then [n / 256, n % 256]
  else
    let hi := 55296 + (n - 65536) / 1024
    let lo := 56320 + (n - 65536) % 1024
    [hi / 256, hi % 256, lo / 256, lo % 256]

/-- hash.js toArray of a string with default encoding. -/
def hashjsToBytes (s : String) : List Nat := s.data.flatMap hashjsUnits

/-- The set matched by the JavaScript regular-expression class backslash-s
(ECMAScript WhiteSpace and LineTerminator). -/
def isJsSpace (c : Char) : Bool :=
  let n := c.toNat
  (9 ≤ n && n ≤ 13) || n == 32 || n == 160 || n == 5760 ||
  (8192 ≤ n && n ≤ 8202) || n == 8232 || n == 8233 || n == 8239 ||
  n == 8287 || n == 12288 || n == 65279

/-- The replace call of hashPostBody: replacing every whitespace run with
the empty string removes exactly the whitespace characters. -/
def stripWs (s : String) : String :=
  String.mk (s.data.filter (fun c => !(isJsSpace c)))

/-- hashPostBody: strip all whitespace from the query text, then take the
SHA-256 hex digest of the residue (part_000 lines 58 to 67). -/
def hashPostBody (query : String) : String :=
  sha256hex (hashjsToBytes (stripWs query))

/-! ## The key-value store (createLRUCache, part_000 lines 25 to 47) -/

/-- One stored record of the backing lru-cache: the value, the insertion
time, and the TTL in milliseconds when one was given. Capacity-based
eviction is not modelled; no claim concerns it. -/
structure CacheRecord where
  value : String
  setAt : Int
  maxAge : Option Int
deriving DecidableEq

/-- The backing lru-cache contents: an association list with unique keys,
most recently written first. -/
abbrev Store : Type := List (String × CacheRecord)

/-- Staleness test of lru-cache: an entry with a TTL is stale once more
than maxAge milliseconds have passed since insertion. -/
def lruIsStale (now : Int) (e : CacheRecord) : Bool :=
  match e.maxAge with
  | none => false
  | some m => decide (now - e.setAt > m)

/-- The get of createLRUCache: look the key up; a stale entry reads as
absent. -/
def storeGet (st : Store) (now : Int) (k : String) : Option String :=
  match List.find? (fun p => p.1 == k) st with
  | some p => if lruIsStale now p.2 then none else some p.2.value
  | none => none

/-- Raw lru-cache set: replace any entry with the same key. -/
def lruSet (st : Store) (now : Int) (k v : String) (ma : Option Int) : Store :=
  (k, ⟨v, now, ma⟩) :: List.filter (fun p => !(p.1 == k)) st

/-- The set of createLRUCache (part_000 lines 39 to 45): a falsy maxAge
argument (the number 0) takes the branch that stores without a TTL. -/
def storeSet (st : Store) (now : Int) (k v : String) (maxAge : Int) : Store :=
  if maxAge == 0 then lruSet st now k v none else lruSet st now k v (some maxAge)

/-! ## Requests, responses and effects -/

/-- The request method: the middleware only distinguishes GET and POST. -/
inductive Method where
  | get : Method
  | post : Method
deriving DecidableEq

/-- The request data the middleware reads: req.body for POST and
req.query for GET, of which only the query and extensions fields are
used. A missing field is none; query-string fields and the fields of the
JSON bodies sent by persisted-query clients are strings. -/
structure Request where
  method : Method
  query : Option String
  extensions : Option String

/-- One observable response action. -/
inductive Effect where
  | setHeader (name value : String) : Effect
  | setStatus (code : Nat) : Effect
  | write (chunk : String) : Effect
  | endResponse : Effect
  | callNext : Effect
deriving DecidableEq

/-- sendContent (part_000 lines 79 to 89): set X-Cache, Content-Type and
Content-Length, write the value, end the response. -/
def sendContent (value : String) (cacheHit : Bool) : List Effect :=
  [Effect.setHeader "X-Cache" (if cacheHit then "HIT" else "MISS"),
   Effect.setHeader "Content-Type" "application/json",
   Effect.setHeader "Content-Length" (intStr value.utf8ByteSize),
   Effect.write value,
   Effect.endResponse]

/-- The status code observed after a list of effects ran; express
initialises statusCode to 200. -/
def statusOf (effs : List Effect) : Nat :=
  effs.foldl (fun s e => match e with | Effect.setStatus c => c | _ => s) 200

/-- Number of endResponse effects. -/
def countEnds (effs : List Effect) : Nat :=
  (effs.filter (fun e => e == Effect.endResponse)).length

/-- Number of callNext effects. -/
def countNexts (effs : List Effect) : Nat :=
  (effs.filter (fun e => e == Effect.callNext)).length

/-- Number of write effects. -/
def countWrites (effs : List Effect) : Nat :=
  (effs.filter (fun e => match e with | Effect.write _ => true | _ => false)).length

/-! ## isPersistedQuery (part_000 lines 48 to 56) -/

/-- isPersistedQuery: when the extensions field is truthy, JSON.parse it
(a malformed string throws) and read the persistedQuery property (a
parse result of null throws). An error is a thrown exception. -/
def isPersistedQuery (req : Request) : Except String (Option Json) :=
  match req.extensions with
  | none => Except.ok none
  | some s =>
    if s == "" then Except.ok none
    else
      match jsonParse s with
      | none => Except.error "SyntaxError"
      | some payload => jsMemberE payload "persistedQuery"

/-! ## extractCacheKey and removeExtensions (part_000 lines 69 to 77) -/

/-- extractCacheKey: the template literal version dot sha256Hash over the
descriptor value. -/
def extractCacheKey (q : Json) : Except String String :=
  match jsMemberE q "version" with
  | Except.error e => Except.error e
  | Except.ok v =>
    match jsMemberE q "sha256Hash" with
    | Except.error e => Except.error e
    | Except.ok h => Except.ok (jsTemplate v ++ "." ++ jsTemplate h)

/-- removeExtensions: JSON.parse the string (malformed throws), delete
the top-level extensions property (delete on null throws, delete on a
primitive is a no-op), JSON.stringify the result. -/
def removeExtensions (obj : String) : Except String String :=
  match jsonParse obj with
  | none => Except.error "SyntaxError"
  | some Json.null => Except.error "TypeError"
  | some (Json.obj fs) =>
      Except.ok (jsonStringify (Json.obj (fs.filter (fun p => p.1 != "extensions"))))
  | some j => Except.ok (jsonStringify j)

/-! ## getFromCacheIfAny (part_000 lines 91 to 139) -/

/-- JavaScript Math.round: floor of the argument plus one half. -/
def jsRound (q : ℚ) : Int := ⌊q + 1 / 2⌋

/-- The POST cache-hit path: JSON.parse the stored value (malformed
throws, null fails to destructure), extract payload, send it as a hit.
A non-string payload is modelled as a thrown error: res.write would
throw on it. -/
def readPostHit (value : String) : Except String (List Effect) :=
  match jsonParse value with
  | none => Except.error "SyntaxError"
  | some Json.null => Except.error "TypeError"
  | some j =>
    match jsMemTotal j "payload" with
    | some (Json.str p) => Except.ok (sendContent p true)
    | _ => Except.error "TypeError"

/-- The GET cache-hit path: destructure duration, at and payload from the
stored value, compute the remaining freshness in seconds with Math.round,
set the Cache-Control CDN header, send the payload as a hit. Entries
whose duration or at is not a number or whose payload is not a string are
modelled as thrown errors (see the module comment). -/
def readGetHit (now : Int) (value : String) : Except String (List Effect) :=
  match jsonParse value with
  | none => Except.error "SyntaxError"
  | some Json.null => Except.error "TypeError"
  | some j =>
    match jsMemTotal j "duration", jsMemTotal j "at", jsMemTotal j "payload" with
    | some (Json.num d), some (Json.num a), some (Json.str p) =>
      let durationLeft : Int := jsRound ((d : ℚ) / 1000 - ((now : ℚ) - (a : ℚ)) / 1000)
      Except.ok (Effect.setHeader "Cache-Control"
        ("public, max-age=" ++ intStr durationLeft ++ ", s-maxage=" ++ intStr durationLeft)
        :: sendContent p true)
    | _, _, _ => Except.error "TypeError"

/-- The body sent on a persisted-query miss with no fallback payload. -/
def pqnfBody : String :=
  jsonStringify (Json.obj [("errors",
    Json.arr [Json.obj [("message", Json.str "PersistedQueryNotFound")]])])

/-- The tail of getFromCacheIfAny after the hit branches fell through:
a GET carrying a truthy descriptor but no query text gets the
PersistedQueryNotFound body; everything else calls next. -/
def gateTail (req : Request) (pq : Option Json) : List Effect :=
  if req.method = Method.get ∧ jsTruthyOpt pq = true ∧ strTruthy req.query = false
  then sendContent pqnfBody false
  else [Effect.callNext]

/-- getFromCacheIfAny (part_000 lines 91 to 139): compute the descriptor
(which may throw), then in order: POST with query text is looked up by
hashPostBody and served on a hit; GET with a truthy descriptor is looked
up by extractCacheKey and served with the CDN header on a hit; a GET
descriptor miss without query text gets the PersistedQueryNotFound body;
otherwise next is called. -/
def getFromCacheIfAny (st : Store) (now : Int) (req : Request) :
    Except String (List Effect) :=
  match isPersistedQuery req with
  | Except.error e => Except.error e
  | Except.ok pq =>
    if req.method = Method.post ∧ strTruthy req.query = true then
      match storeGet st now (hashPostBody (req.query.getD "")) with
      | some value => readPostHit value
      | none => Except.ok (gateTail req pq)
    else if req.method = Method.get ∧ jsTruthyOpt pq = true then
      match pq with
      | some pqv =>
        match extractCacheKey pqv with
        | Except.error e => Except.error e
        | Except.ok key =>
          match storeGet st now key with
          | some value => readGetHit now value
          | none => Except.ok (gateTail req pq)
      | none => Except.ok (gateTail req pq)
    else Except.ok (gateTail req pq)

/-! ## storeInCache (part_000 lines 141 to 179) -/

/-- One step of the hints reduce: property access p.maxAge (a null
element throws), then the comparison maxAge less than min, which is
false when maxAge is undefined. A non-number non-null maxAge is treated
as not smaller (in JavaScript a numeric string could coerce; no claim
depends on that corner). -/
def minAgeStep (acc : Except String Int) (p : Json) : Except String Int :=
  match acc with
  | Except.error e => Except.error e
  | Except.ok m =>
    match jsMemberE p "maxAge" with
    | Except.error e => Except.error e
    | Except.ok (some (Json.num x)) => Except.ok (if x < m then x else m)
    | Except.ok _ => Except.ok m

/-- The hints reduce of storeInCache with initial value 60 (part_000
lines 155 to 158). -/
def minAgeReduce (hints : List Json) : Except String Int :=
  hints.foldl minAgeStep (Except.ok 60)

/-- The cache entry object storeInCache stringifies and stores. -/
def cacheEntryJson (payload : String) (createdAt duration : Int) : Json :=
  Json.obj [("payload", Json.str payload), ("at", Json.num createdAt),
            ("duration", Json.num duration)]

/-- storeInCache (part_000 lines 141 to 179): for a fingerprint-eligible
request (GET with truthy descriptor, or POST with query text), parse the
engine response (res.gqlResponse), read its extensions property (throws
on a null response); when extensions and extensions.cacheControl are both
truthy, reduce the hints to minAge (hints missing or not an array
throws), build the entry with payload stripped of extensions and
duration minAge times 1000, and write it with that same number as the
TTL argument; then call next. When the guard or the truthiness check
fails, the store is untouched and next is called. -/
def storeInCache (st : Store) (now : Int) (req : Request) (gqlData : String) :
    Except String (Store × List Effect) :=
  match isPersistedQuery req with
  | Except.error e => Except.error e
  | Except.ok pq =>
    if (req.method = Method.get ∧ jsTruthyOpt pq = true) ∨
       (req.method = Method.post ∧ strTruthy req.query = true) then
      match jsonParse gqlData with
      | none => Except.error "SyntaxError"
      | some g =>
        match jsMemberE g "extensions" with
        | Except.error e => Except.error e
        | Except.ok extOpt =>
          if jsTruthyOpt extOpt = true ∧ jsTruthyOpt (optMem extOpt "cacheControl") = true then
            match optMem extOpt "cacheControl" with
            | some ccv =>
              match jsMemTotal ccv "hints" with
              | some (Json.arr hints) =>
                match minAgeReduce hints with
                | Except.error e => Except.error e
                | Except.ok minAge =>
                  let minAgeInMs := minAge * 1000
                  match (match req.method, pq with
                         | Method.get, some pqv => extractCacheKey pqv
                         | _, _ => Except.ok (hashPostBody (req.query.getD ""))) with
                  | Except.error e => Except.error e
                  | Except.ok key =>
                    match removeExtensions gqlData with
                    | Except.error e => Except.error e
                    | Except.ok payload =>
                      Except.ok
                        (storeSet st now key
                          (jsonStringify (cacheEntryJson payload now minAgeInMs)) minAgeInMs,
                         [Effect.callNext])
              | _ => Except.error "TypeError"
            | none => Except.ok (st, [Effect.callNext])
          else Except.ok (st, [Effect.callNext])
    else Except.ok (st, [Effect.callNext])

/-! ## Statement-level definitions -/

/-- The same request with no extensions metadata at all. -/
def noDescriptor (req : Request) : Request :=
  { req with extensions := none }

/-- Every stored value is a JSON object with a string payload, a numeric
at and a numeric duration: the shape storeInCache writes. -/
def WellFormedStore (st : Store) : Prop :=
  ∀ p ∈ st, ∃ fs, jsonParse (p : String × CacheRecord).2.value = some (Json.obj fs) ∧
    (∃ q, jsLookup fs "payload" = some (Json.str q)) ∧
    (∃ a, jsLookup fs "at" = some (Json.num a)) ∧
    (∃ d, jsLookup fs "duration" = some (Json.num d))

/-- An extensions field that, when present and nonempty, parses as JSON
other than null: the hypothesis under which the gate cannot throw while
reading the descriptor. -/
def ExtensionsBenign (req : Request) : Prop :=
  ∀ s, req.extensions = some s → s ≠ "" →
    ∃ j, jsonParse s = some j ∧ j ≠ Json.null

/-- Decimal digit characters of a natural number (proof-side reference
implementation; natStrChars computes the same list with fuel). -/
def digitsChars (n : Nat) : List Char :=
  if h : n < 10 then [Char.ofNat (48 + n)]
  else digitsChars (n / 10) ++ [Char.ofNat (48 + n % 10)]
termination_by n
decreasing_by exact Nat.div_lt_self (by omega) (by omega)

/-- Concrete request of the counterexamples: a POST with query text and
no extensions. -/
def cexPostReq : Request := ⟨Method.post, some "{a}", none⟩

/-- Concrete engine response whose only freshness hint is maxAge 0. -/
def cexGqlZero : String :=
  "\x7b\"data\":1,\"extensions\":\x7b\"cacheControl\":\x7b\"hints\":[\x7b\"maxAge\":0\x7d]\x7d\x7d\x7d"

/-- Concrete GET request whose extensions field is the string null:
valid JSON, on which reading persistedQuery throws in JavaScript. -/
def cexNullExtReq : Request := ⟨Method.get, none, some "null"⟩

/-- Concrete GET request whose extensions field is not parseable JSON. -/
def cexBadExtReq : Request := ⟨Method.get, none, some "\x7b"⟩

/-! ## Character facts -/

theorem charToNat_ofNat_small (m : Nat) (h : m < 55296) : (Char.ofNat m).toNat = m := by
  unfold Char.ofNat
  rw [dif_pos (Or.inl h)]
  rfl

theorem char_eq_iff_toNat (a b : Char) : a = b ↔ a.toNat = b.toNat := by
  constructor
  · intro h; rw [h]
  · intro h
    cases a with
    | mk v1 h1 =>
      cases b with
      | mk v2 h2 =>
        simp only [Char.toNat] at h
        congr 1
        exact UInt32.toNat.inj h

theorem isDigit_iff (c : Char) : c.isDigit = true ↔ 48 ≤ c.toNat ∧ c.toNat ≤ 57 := by
  simp only [Char.isDigit, Bool.and_eq_true, decide_eq_true_eq, Char.le_def]
  exact Iff.rfl

theorem isDigit_ofNat_digit (n : Nat) (h : n < 10) : (Char.ofNat (48 + n)).isDigit = true := by
  rw [isDigit_iff, charToNat_ofNat_small _ (by omega)]
  omega

/-! ## Decimal digits: natStrChars agrees with digitsChars -/

theorem natStrAux_eq_digits :
    ∀ (f n : Nat) (acc : List Char), n < 10 ^ (f + 1) →
      natStrAux (f + 1) n acc = digitsChars n ++ acc := by
  intro f
  induction f with
  | zero =>
    intro n acc h
    have hn : n < 10 := by simpa using h
    rw [natStrAux, if_pos hn, digitsChars, dif_pos hn, Nat.mod_eq_of_lt hn]
    simp
  | succ f ih =>
    intro n acc h
    by_cases hn : n < 10
    · rw [natStrAux, if_pos hn, digitsChars, dif_pos hn, Nat.mod_eq_of_lt hn]
      simp
    · rw [natStrAux, if_neg hn, digitsChars, dif_neg hn]
      have hdiv : n / 10 < 10 ^ (f + 1) := by
        rw [Nat.div_lt_iff_lt_mul (by omega)]
        calc n < 10 ^ (f + 1 + 1) := h
        _ = 10 ^ (f + 1) * 10 := by ring
      rw [ih (n / 10) _ hdiv]
      simp

theorem natStrChars_eq_digits (n : Nat) : natStrChars n = digitsChars n := by
  have hb : n < 10 ^ (n + 1) := by
    calc n < 2 ^ n := Nat.lt_two_pow n
    _ ≤ 10 ^ n := Nat.pow_le_pow_left (by omega) n
    _ ≤ 10 ^ (n + 1) := Nat.pow_le_pow_right (by omega) (by omega)
  rw [natStrChars, natStrAux_eq_digits n n [] hb]
  simp

theorem digitsChars_ne_nil (n : Nat) : digitsChars n ≠ [] := by
  rw [digitsChars]
  split
  · simp
  · simp

theorem digitsChars_all_digit :
    ∀ (n : Nat), ∀ c ∈ digitsChars n, c.isDigit = true := by
  intro n
  induction n using Nat.strong_induction_on with
  | _ n ih =>
    intro c hc
    rw [digitsChars] at hc
    by_cases hn : n < 10
    · rw [dif_pos hn] at hc
      simp only [List.mem_singleton] at hc
      subst hc
      exact isDigit_ofNat_digit n hn
    · rw [dif_neg hn] at hc
      rcases List.mem_append.mp hc with h1 | h2
      · exact ih (n / 10) (Nat.div_lt_self (by omega) (by omega)) c h1
      · simp only [List.mem_singleton] at h2
        subst h2
        exact isDigit_ofNat_digit (n % 10) (Nat.mod_lt _ (by omega))

theorem digitsChars_head_zero (n : Nat) :
    (digitsChars n).head? = some '0' → n = 0 := by
  induction n using Nat.strong_induction_on with
  | _ n ih =>
    intro h
    rw [digitsChars] at h
    by_cases hn : n < 10
    · rw [dif_pos hn] at h
      simp only [List.head?_cons, Option.some.injEq] at h
      have := congrArg Char.toNat h
      rw [charToNat_ofNat_small _ (by omega)] at this
      have : 48 + n = 48 := this
      omega
    · rw [dif_neg hn] at h
      rw [List.head?_append_of_ne_nil _ (digitsChars_ne_nil (n / 10))] at h
      have := ih (n / 10) (Nat.div_lt_self (by omega) (by omega)) h
      omega

theorem digitsChars_length_one (n : Nat) (h : n < 10) :
    (digitsChars n).length = 1 := by
  rw [digitsChars, dif_pos h]
  rfl

/-! ## digitsToNat inverts digitsChars -/

theorem digitsToNat_from (a : Nat) (ds : List Char) :
    ds.foldl (fun x c => x * 10 + (c.toNat - 48)) a =
      a * 10 ^ ds.length + digitsToNat ds := by
  induction ds generalizing a with
  | nil => simp [digitsToNat]
  | cons d l ih =>
    have hv : (0 : Nat) * 10 + (d.toNat - 48) = d.toNat - 48 := by omega
    simp only [List.foldl_cons, List.length_cons]
    rw [ih]
    conv_rhs => rw [digitsToNat]
    simp only [List.foldl_cons]
    rw [hv, ih (d.toNat - 48)]
    ring

theorem digitsToNat_append (xs ys : List Char) :
    digitsToNat (xs ++ ys) = digitsToNat xs * 10 ^ ys.length + digitsToNat ys := by
  unfold digitsToNat
  rw [List.foldl_append, digitsToNat_from]
  rfl

theorem digitsToNat_digitsChars (n : Nat) : digitsToNat (digitsChars n) = n := by
  induction n using Nat.strong_induction_on with
  | _ n ih =>
    rw [digitsChars]
    by_cases hn : n < 10
    · rw [dif_pos hn]
      simp [digitsToNat, charToNat_ofNat_small _ (by omega : 48 + n < 55296)]
    · rw [dif_neg hn]
      rw [digitsToNat_append, ih (n / 10) (Nat.div_lt_self (by omega) (by omega))]
      have : (Char.ofNat (48 + n % 10)).toNat = 48 + n % 10 :=
        charToNat_ofNat_small _ (by have := Nat.mod_lt n (show 0 < 10 by omega); omega)
      simp [digitsToNat, this]
      omega

/-! ## takeWhile and dropWhile over digit prefixes -/

theorem takeWhile_digits_append (xs rest : List Char)
    (hx : ∀ c ∈ xs, c.isDigit = true)
    (hr : ∀ c, rest.head? = some c → c.isDigit = false) :
    (xs ++ rest).takeWhile Char.isDigit = xs := by
  induction xs with
  | nil =>
    cases rest with
    | nil => rfl
    | cons a l => simp [List.takeWhile_cons, hr a rfl]
  | cons a l ih =>
    simp only [List.cons_append, List.takeWhile_cons, hx a (by simp)]
    simp only [if_true]
    rw [ih (fun c hc => hx c (by simp [hc]))]

theorem dropWhile_digits_append (xs rest : List Char)
    (hx : ∀ c ∈ xs, c.isDigit = true)
    (hr : ∀ c, rest.head? = some c → c.isDigit = false) :
    (xs ++ rest).dropWhile Char.isDigit = rest := by
  induction xs with
  | nil =>
    cases rest with
    | nil => rfl
    | cons a l => simp [List.dropWhile_cons, hr a rfl]
  | cons a l ih =>
    simp only [List.cons_append, List.dropWhile_cons, hx a (by simp)]
    simp only [if_true]
    rw [ih (fun c hc => hx c (by simp [hc]))]

/-! ## parseNatNum and parseNumFrom round trips -/

theorem parseNatNum_digits (n : Nat) (rest : List Char)
    (hr : ∀ c, rest.head? = some c → c.isDigit = false) :
    parseNatNum (digitsChars n ++ rest) = some (n, rest) := by
  unfold parseNatNum
  rw [takeWhile_digits_append _ _ (digitsChars_all_digit n) hr,
      dropWhile_digits_append _ _ (digitsChars_all_digit n) hr]
  rw [if_neg (digitsChars_ne_nil n)]
  rw [if_neg ?_, digitsToNat_digitsChars]
  rintro ⟨hlen, hhead⟩
  have h0 := digitsChars_head_zero n hhead
  subst h0
  rw [digitsChars_length_one 0 (by omega)] at hlen
  omega

theorem head_digitsChars_isDigit (n : Nat) (c : Char) (cs : List Char)
    (h : digitsChars n = c :: cs) : c.isDigit = true :=
  digitsChars_all_digit n c (h ▸ List.mem_cons_self c cs)

theorem digit_ne_minus (c : Char) (h : c.isDigit = true) : ¬ c = '-' := by
  intro he
  rw [isDigit_iff] at h
  have h45 : c.toNat = 45 := by rw [he]; rfl
  omega

theorem parseNumFrom_intStr (i : Int) (rest : List Char)
    (hr : ∀ c, rest.head? = some c → c.isDigit = false) :
    parseNumFrom (intStrChars i ++ rest) = some (Json.num i, rest) := by
  unfold intStrChars
  by_cases hneg : i < 0
  · rw [if_pos hneg, natStrChars_eq_digits]
    simp only [List.cons_append]
    rw [parseNumFrom, if_pos rfl, parseNatNum_digits _ _ hr]
    show some (Json.num (-(i.natAbs : Int)), rest) = some (Json.num i, rest)
    have hi : -((i.natAbs : Nat) : Int) = i := by omega
    rw [hi]
  · rw [if_neg hneg, natStrChars_eq_digits]
    obtain ⟨c, cs, hd⟩ : ∃ c cs, digitsChars i.natAbs = c :: cs := by
      cases hcc : digitsChars i.natAbs with
      | nil => exact absurd hcc (digitsChars_ne_nil _)
      | cons c cs => exact ⟨c, cs, rfl⟩
    rw [hd]
    simp only [List.cons_append]
    rw [parseNumFrom, if_neg (digit_ne_minus c (head_digitsChars_isDigit _ _ _ hd))]
    rw [show c :: (cs ++ rest) = (c :: cs) ++ rest from rfl, ← hd,
        parseNatNum_digits _ _ hr]
    show some (Json.num ((i.natAbs : Nat) : Int), rest) = some (Json.num i, rest)
    have hi : ((i.natAbs : Nat) : Int) = i := by omega
    rw [hi]

/-! ## parseStrChars inverts escList -/

theorem hexVal_hexChar (k : Nat) (h : k < 16) :
    hexDigitVal (hexChar k) = some k := by
  interval_cases k <;> decide

theorem parseStrChars_quote (f : Nat) (r : List Char) :
    parseStrChars (f + 1) ('"' :: r) = some ([], r) := rfl

theorem parseStrChars_escQuote (f : Nat) (r : List Char) :
    parseStrChars (f + 1) ('\\' :: '"' :: r) = consStr '"' (parseStrChars f r) := rfl

theorem parseStrChars_escBack (f : Nat) (r : List Char) :
    parseStrChars (f + 1) ('\\' :: '\\' :: r) = consStr '\\' (parseStrChars f r) := rfl

theorem parseStrChars_escB (f : Nat) (r : List Char) :
    parseStrChars (f + 1) ('\\' :: 'b' :: r) = consStr (Char.ofNat 8) (parseStrChars f r) := rfl

theorem parseStrChars_escT (f : Nat) (r : List Char) :
    parseStrChars (f + 1) ('\\' :: 't' :: r) = consStr '\t' (parseStrChars f r) := rfl

theorem parseStrChars_escN (f : Nat) (r : List Char) :
    parseStrChars (f + 1) ('\\' :: 'n' :: r) = consStr '\n' (parseStrChars f r) := rfl

theorem parseStrChars_escF (f : Nat) (r : List Char) :
    parseStrChars (f + 1) ('\\' :: 'f' :: r) = consStr (Char.ofNat 12) (parseStrChars f r) := rfl

theorem parseStrChars_escR (f : Nat) (r : List Char) :
    parseStrChars (f + 1) ('\\' :: 'r' :: r) = consStr '\r' (parseStrChars f r) := rfl

theorem parseStrChars_escU (f : Nat) (r : List Char) (t : Nat) (h : t < 32) :
    parseStrChars (f + 1)
      ('\\' :: 'u' :: '0' :: '0' :: (hex2 t ++ r)) =
      consStr (Char.ofNat t) (parseStrChars f r) := by
  interval_cases t <;> rfl

theorem parseStrChars_ord (f : Nat) (c : Char) (r : List Char)
    (h1 : ¬ c = '"') (h2 : ¬ c = '\\') (h3 : ¬ c.toNat < 32) :
    parseStrChars (f + 1) (c :: r) = consStr c (parseStrChars f r) := by
  rw [parseStrChars.eq_def]
  dsimp only []
  rw [if_neg h1, if_neg h2, if_neg h3]

theorem parseStrChars_escape :
    ∀ (cs : List Char) (f : Nat) (rest : List Char),
      (escList cs).length < f →
      parseStrChars f (escList cs ++ ('"' :: rest)) = some (cs, rest) := by
  intro cs
  induction cs with
  | nil =>
    intro f rest hf
    obtain ⟨f1, rfl⟩ : ∃ f1, f = f1 + 1 := ⟨f - 1, by omega⟩
    simp only [escList, List.flatMap_nil, List.nil_append]
    exact parseStrChars_quote f1 rest
  | cons c cs ih =>
    intro f rest hf
    have hesc : escList (c :: cs) = escChar c ++ escList cs := by
      simp [escList]
    rw [hesc] at hf ⊢
    obtain ⟨f1, rfl⟩ : ∃ f1, f = f1 + 1 := ⟨f - 1, by omega⟩
    simp only [List.length_append] at hf
    by_cases h1 : c = '"'
    · subst h1
      have hL : (escList cs).length < f1 := by
        rw [show (escChar '"').length = 2 from rfl] at hf; omega
      rw [show escChar '"' = ['\\', '"'] from rfl]
      simp only [List.cons_append, List.nil_append, List.append_assoc]
      obtain ⟨f2, rfl⟩ : ∃ f2, f1 = f2 + 1 := ⟨f1 - 1, by omega⟩
      rw [parseStrChars_escQuote, ih (f2 + 1) rest hL]
      rfl
    · by_cases h2 : c = '\\'
      · subst h2
        have hL : (escList cs).length < f1 := by
          rw [show (escChar '\\').length = 2 from rfl] at hf; omega
        rw [show escChar '\\' = ['\\', '\\'] from rfl]
        simp only [List.cons_append, List.nil_append, List.append_assoc]
        obtain ⟨f2, rfl⟩ : ∃ f2, f1 = f2 + 1 := ⟨f1 - 1, by omega⟩
        rw [parseStrChars_escBack, ih (f2 + 1) rest hL]
        rfl
      · by_cases h3 : c = Char.ofNat 8
        · subst h3
          have hL : (escList cs).length < f1 := by
            rw [show (escChar (Char.ofNat 8)).length = 2 from rfl] at hf; omega
          rw [show escChar (Char.ofNat 8) = ['\\', 'b'] from rfl]
          simp only [List.cons_append, List.nil_append, List.append_assoc]
          obtain ⟨f2, rfl⟩ : ∃ f2, f1 = f2 + 1 := ⟨f1 - 1, by omega⟩
          rw [parseStrChars_escB, ih (f2 + 1) rest hL]
          rfl
        · by_cases h4 : c = Char.ofNat 9
          · subst h4
            have hL : (escList cs).length < f1 := by
              rw [show (escChar (Char.ofNat 9)).length = 2 from rfl] at hf; omega
            rw [show escChar (Char.ofNat 9) = ['\\', 't'] from rfl]
            simp only [List.cons_append, List.nil_append, List.append_assoc]
            obtain ⟨f2, rfl⟩ : ∃ f2, f1 = f2 + 1 := ⟨f1 - 1, by omega⟩
            rw [parseStrChars_escT, ih (f2 + 1) rest hL]
            rfl
          · by_cases h5 : c = Char.ofNat 10
            · subst h5
              have hL : (escList cs).length < f1 := by
                rw [show (escChar (Char.ofNat 10)).length = 2 from rfl] at hf; omega
              rw [show escChar (Char.ofNat 10) = ['\\', 'n'] from rfl]
              simp only [List.cons_append, List.nil_append, List.append_assoc]
              obtain ⟨f2, rfl⟩ : ∃ f2, f1 = f2 + 1 := ⟨f1 - 1, by omega⟩
              rw [parseStrChars_escN, ih (f2 + 1) rest hL]
              rfl
            · by_cases h6 : c = Char.ofNat 12
              · subst h6
                have hL : (escList cs).length < f1 := by
                  rw [show (escChar (Char.ofNat 12)).length = 2 from rfl] at hf; omega
                rw [show escChar (Char.ofNat 12) = ['\\', 'f'] from rfl]
                simp only [List.cons_append, List.nil_append, List.append_assoc]
                obtain ⟨f2, rfl⟩ : ∃ f2, f1 = f2 + 1 := ⟨f1 - 1, by omega⟩
                rw [parseStrChars_escF, ih (f2 + 1) rest hL]
                rfl
              · by_cases h7 : c = Char.ofNat 13
                · subst h7
                  have hL : (escList cs).length < f1 := by
                    rw [show (escChar (Char.ofNat 13)).length = 2 from rfl] at hf; omega
                  rw [show escChar (Char.ofNat 13) = ['\\', 'r'] from rfl]
                  simp only [List.cons_append, List.nil_append, List.append_assoc]
                  obtain ⟨f2, rfl⟩ : ∃ f2, f1 = f2 + 1 := ⟨f1 - 1, by omega⟩
                  rw [parseStrChars_escR, ih (f2 + 1) rest hL]
                  rfl
                · by_cases h8 : c.toNat < 32
                  · have hesc8 : escChar c =
                        '\\' :: 'u' :: '0' :: '0' :: hex2 c.toNat := by
                      unfold escChar
                      rw [if_neg h1, if_neg h2, if_neg h3, if_neg h4, if_neg h5,
                          if_neg h6, if_neg h7, if_pos h8]
                    rw [hesc8] at hf ⊢
                    have hL : (escList cs).length < f1 := by
                      rw [show ('\\' :: 'u' :: '0' :: '0' :: hex2 c.toNat).length = 6
                            from rfl] at hf
                      omega
                    simp only [List.cons_append, List.nil_append, List.append_assoc]
                    obtain ⟨f2, rfl⟩ : ∃ f2, f1 = f2 + 1 := ⟨f1 - 1, by omega⟩
                    rw [parseStrChars_escU (f2 + 1) _ c.toNat h8, Char.ofNat_toNat,
                        ih (f2 + 1) rest hL]
                    rfl
                  · have hesc9 : escChar c = [c] := by
                      unfold escChar
                      rw [if_neg h1, if_neg h2, if_neg h3, if_neg h4, if_neg h5,
                          if_neg h6, if_neg h7, if_neg h8]
                    rw [hesc9] at hf ⊢
                    have hL : (escList cs).length < f1 := by
                      rw [show ([c]).length = 1 from rfl] at hf; omega
                    simp only [List.cons_append, List.nil_append]
                    rw [parseStrChars_ord f1 c _ h1 h2 h8, ih f1 rest hL]
                    rfl

/-! ## Stepping parseVal and parseFields through stringified text -/

theorem skipWs_not_ws (c : Char) (r : List Char) (h : isJsonWs c = false) :
    skipWs (c :: r) = c :: r := by
  simp [skipWs, List.dropWhile_cons, h]

theorem numHead_facts (c : Char) (h : c = '-' ∨ c.isDigit = true) :
    (¬ c = '"') ∧ (¬ c = '\x7b') ∧ (¬ c = '[') ∧ (¬ c = 'n') ∧ (¬ c = 't') ∧
      (¬ c = 'f') ∧ isJsonWs c = false := by
  have hb : c.toNat = 45 ∨ (48 ≤ c.toNat ∧ c.toNat ≤ 57) := by
    rcases h with h | h
    · left; rw [h]; rfl
    · right; exact (isDigit_iff c).mp h
  have hne : ∀ m : Nat, m ≠ 45 → (m < 48 ∨ 57 < m) → ¬ c.toNat = m := by
    intro m h1 h2 he; omega
  have hxq : ¬ c = '"' := fun he => hne 34 (by omega) (by omega) (by rw [he]; rfl)
  have hxo : ¬ c = '\x7b' := fun he => hne 123 (by omega) (by omega) (by rw [he]; rfl)
  have hxb : ¬ c = '[' := fun he => hne 91 (by omega) (by omega) (by rw [he]; rfl)
  have hxn : ¬ c = 'n' := fun he => hne 110 (by omega) (by omega) (by rw [he]; rfl)
  have hxt : ¬ c = 't' := fun he => hne 116 (by omega) (by omega) (by rw [he]; rfl)
  have hxf : ¬ c = 'f' := fun he => hne 102 (by omega) (by omega) (by rw [he]; rfl)
  have hxw : isJsonWs c = false := by
    have hw : ∀ m : Nat, ¬ c.toNat = m → (c.toNat == m) = false := by
      intro m hm
      simp only [beq_eq_false_iff_ne, ne_eq]
      exact hm
    simp only [isJsonWs, hw 32 (by omega), hw 9 (by omega), hw 10 (by omega),
      hw 13 (by omega), Bool.or_false]
  exact ⟨hxq, hxo, hxb, hxn, hxt, hxf, hxw⟩

theorem intStrChars_head (i : Int) :
    ∃ c cs, intStrChars i = c :: cs ∧ (c = '-' ∨ c.isDigit = true) := by
  unfold intStrChars
  by_cases hneg : i < 0
  · rw [if_pos hneg]
    exact ⟨'-', natStrChars i.natAbs, rfl, Or.inl rfl⟩
  · rw [if_neg hneg, natStrChars_eq_digits]
    cases hcc : digitsChars i.natAbs with
    | nil => exact absurd hcc (digitsChars_ne_nil _)
    | cons c cs =>
      exact ⟨c, cs, rfl, Or.inr (head_digitsChars_isDigit _ _ _ hcc)⟩

theorem parseVal_num (f : Nat) (i : Int) (rest : List Char)
    (hr : ∀ c, rest.head? = some c → c.isDigit = false) :
    parseVal (f + 1) (intStrChars i ++ rest) = some (Json.num i, rest) := by
  obtain ⟨c, cs, hic, hh⟩ := intStrChars_head i
  obtain ⟨hq, hob, hbr, hn, ht, hf, hws⟩ := numHead_facts c hh
  rw [hic]
  simp only [List.cons_append]
  rw [parseVal.eq_def]
  dsimp only []
  rw [skipWs_not_ws c _ hws]
  dsimp only []
  rw [if_neg hq, if_neg hob, if_neg hbr, if_neg hn, if_neg ht, if_neg hf,
      if_pos (by rcases hh with h | h; exact Or.inl h; exact Or.inr h)]
  rw [show c :: (cs ++ rest) = (c :: cs) ++ rest from rfl, ← hic,
      parseNumFrom_intStr i rest hr]

theorem parseVal_str (f : Nat) (s : String) (rest : List Char) :
    parseVal (f + 1) (('"' :: escList s.data) ++ ('"' :: rest)) =
      some (Json.str s, rest) := by
  rw [parseVal.eq_def]
  dsimp only []
  simp only [List.cons_append]
  rw [skipWs_not_ws '"' _ (by rfl)]
  dsimp only []
  rw [if_pos rfl]
  rw [parseStrChars_escape s.data _ rest (by simp only [List.length_append]; omega)]
  rfl

theorem parseFields_last (f : Nat) (k : List Char) (r r2 r4 : List Char) (v : Json)
    (hk : parseStrChars (r.length + 1) r = some (k, ':' :: r2))
    (hv : parseVal f r2 = some (v, '\x7d' :: r4)) :
    parseFields (f + 1) ('"' :: r) = some ([(String.mk k, v)], r4) := by
  rw [parseFields.eq_def]
  dsimp only []
  rw [skipWs_not_ws '"' _ (by rfl)]
  dsimp only []
  rw [if_pos rfl, hk]
  dsimp only []
  rw [skipWs_not_ws ':' _ (by rfl)]
  dsimp only []
  rw [if_pos rfl, hv]
  dsimp only []
  rw [skipWs_not_ws '\x7d' _ (by rfl)]
  dsimp only []
  rw [if_neg (by decide), if_pos rfl]

theorem parseFields_cont (f : Nat) (k : List Char) (r r2 r4 r5 : List Char) (v : Json)
    (fs : List (String × Json))
    (hk : parseStrChars (r.length + 1) r = some (k, ':' :: r2))
    (hv : parseVal f r2 = some (v, ',' :: r4))
    (hrest : parseFields f r4 = some (fs, r5)) :
    parseFields (f + 1) ('"' :: r) = some ((String.mk k, v) :: fs, r5) := by
  rw [parseFields.eq_def]
  dsimp only []
  rw [skipWs_not_ws '"' _ (by rfl)]
  dsimp only []
  rw [if_pos rfl, hk]
  dsimp only []
  rw [skipWs_not_ws ':' _ (by rfl)]
  dsimp only []
  rw [if_pos rfl, hv]
  dsimp only []
  rw [skipWs_not_ws ',' _ (by rfl)]
  dsimp only []
  rw [if_pos rfl, hrest]
  rfl

theorem parseVal_objStart (f : Nat) (x : List Char) :
    parseVal (f + 1) ('\x7b' :: '"' :: x) =
      (parseFields f ('"' :: x)).map (fun p => (Json.obj (dedupFields p.1), p.2)) := rfl

/-! ## Round trip for the stored cache entry -/

theorem dedup_entryFields (v1 v2 v3 : Json) :
    dedupFields [("payload", v1), ("at", v2), ("duration", v3)] =
      [("payload", v1), ("at", v2), ("duration", v3)] := rfl

theorem head_comma_not_digit :
    ∀ c : Char, (List.head? (',' :: R)) = some c → c.isDigit = false := by
  intro c h
  simp only [List.head?_cons, Option.some.injEq] at h
  subst h
  rfl

theorem head_brace_not_digit (R : List Char) :
    ∀ c : Char, (List.head? ('\x7d' :: R)) = some c → c.isDigit = false := by
  intro c h
  simp only [List.head?_cons, Option.some.injEq] at h
  subst h
  rfl

theorem entry_chars_shape (p : String) (a d : Int) :
    stringifyChars (cacheEntryJson p a d) =
      '\x7b' :: '"' :: (escList "payload".data ++ '"' :: ':' ::
        (('"' :: escList p.data) ++ ('"' :: ',' :: '"' ::
          (escList "at".data ++ '"' :: ':' ::
            (intStrChars a ++ ',' :: '"' ::
              (escList "duration".data ++ '"' :: ':' ::
                (intStrChars d ++ ['\x7d']))))))) := by
  rw [cacheEntryJson]
  rw [stringifyChars, fieldChars, objTailChars, fieldChars, objTailChars, fieldChars,
      objTailChars, stringifyChars, stringifyChars, stringifyChars]
  simp only [List.cons_append, List.append_assoc, List.nil_append, List.append_nil]

theorem cacheEntry_parseVal (g : Nat) (p : String) (a d : Int) :
    parseVal (g + 5) (stringifyChars (cacheEntryJson p a d)) =
      some (cacheEntryJson p a d, []) := by
  rw [entry_chars_shape]
  have h3 : parseFields (g + 2)
      ('"' :: (escList "duration".data ++ '"' :: ':' :: (intStrChars d ++ ['\x7d']))) =
      some ([("duration", Json.num d)], []) := by
    have hv : parseVal (g + 1) (intStrChars d ++ ['\x7d']) =
        some (Json.num d, '\x7d' :: []) :=
      parseVal_num g d ['\x7d'] (head_brace_not_digit [])
    exact parseFields_last (g + 1) "duration".data _ _ [] (Json.num d)
      (parseStrChars_escape "duration".data _ _ (by simp only [List.length_append]; omega))
      hv
  have h2 : parseFields (g + 3)
      ('"' :: (escList "at".data ++ '"' :: ':' ::
        (intStrChars a ++ ',' :: '"' ::
          (escList "duration".data ++ '"' :: ':' :: (intStrChars d ++ ['\x7d']))))) =
      some ([("at", Json.num a), ("duration", Json.num d)], []) := by
    have hv : parseVal (g + 2)
        (intStrChars a ++ ',' :: '"' ::
          (escList "duration".data ++ '"' :: ':' :: (intStrChars d ++ ['\x7d']))) =
        some (Json.num a, ',' :: '"' ::
          (escList "duration".data ++ '"' :: ':' :: (intStrChars d ++ ['\x7d']))) :=
      parseVal_num (g + 1) a _ (fun c h => head_comma_not_digit c h)
    exact parseFields_cont (g + 2) "at".data _ _ _ _ (Json.num a) _
      (parseStrChars_escape "at".data _ _ (by simp only [List.length_append]; omega))
      hv h3
  have h1 : parseFields (g + 4)
      ('"' :: (escList "payload".data ++ '"' :: ':' ::
        (('"' :: escList p.data) ++ ('"' :: ',' :: '"' ::
          (escList "at".data ++ '"' :: ':' ::
            (intStrChars a ++ ',' :: '"' ::
              (escList "duration".data ++ '"' :: ':' ::
                (intStrChars d ++ ['\x7d'])))))))) =
      some ([("payload", Json.str p), ("at", Json.num a), ("duration", Json.num d)], []) := by
    have hv : parseVal (g + 3)
        (('"' :: escList p.data) ++ ('"' :: ',' :: '"' ::
          (escList "at".data ++ '"' :: ':' ::
            (intStrChars a ++ ',' :: '"' ::
              (escList "duration".data ++ '"' :: ':' :: (intStrChars d ++ ['\x7d'])))))) =
        some (Json.str p, ',' :: '"' ::
          (escList "at".data ++ '"' :: ':' ::
            (intStrChars a ++ ',' :: '"' ::
              (escList "duration".data ++ '"' :: ':' :: (intStrChars d ++ ['\x7d']))))) :=
      parseVal_str (g + 2) p _
    exact parseFields_cont (g + 3) "payload".data _ _ _ _ (Json.str p) _
      (parseStrChars_escape "payload".data _ _ (by simp only [List.length_append]; omega))
      hv h2
  rw [show g + 5 = (g + 4) + 1 from rfl, parseVal_objStart, h1]
  rfl

theorem cacheEntry_roundtrip (p : String) (a d : Int) :
    jsonParse (jsonStringify (cacheEntryJson p a d)) = some (cacheEntryJson p a d) := by
  unfold jsonParse jsonStringify
  have hdata : (String.mk (stringifyChars (cacheEntryJson p a d))).data =
      stringifyChars (cacheEntryJson p a d) := rfl
  have hlen : (String.mk (stringifyChars (cacheEntryJson p a d))).length =
      (stringifyChars (cacheEntryJson p a d)).length := rfl
  rw [hdata, hlen]
  have hge : 2 ≤ (stringifyChars (cacheEntryJson p a d)).length := by
    rw [entry_chars_shape]
    simp only [List.length_cons]
    omega
  obtain ⟨g, hg⟩ : ∃ g, 2 * (stringifyChars (cacheEntryJson p a d)).length + 2 = g + 5 :=
    ⟨2 * (stringifyChars (cacheEntryJson p a d)).length - 3, by omega⟩
  rw [hg, cacheEntry_parseVal g p a d]
  rfl

/-! ## Store lemmas -/

theorem storeGet_set_self (st : Store) (now now2 : Int) (k v : String) (ttl : Int)
    (httl : ttl ≠ 0) (hfresh : now2 - now ≤ ttl) :
    storeGet (storeSet st now k v ttl) now2 k = some v := by
  unfold storeSet storeGet lruSet
  rw [if_neg (by simpa using httl)]
  rw [List.find?_cons_of_pos _ (by simp)]
  simp only [lruIsStale]
  rw [if_neg (by simp only [decide_eq_true_eq]; omega)]

theorem storeGet_set_self_noTtl (st : Store) (now now2 : Int) (k v : String) :
    storeGet (storeSet st now k v 0) now2 k = some v := by
  unfold storeSet storeGet lruSet
  rw [if_pos (by simp)]
  rw [List.find?_cons_of_pos _ (by simp)]
  simp [lruIsStale]

theorem storeGet_eq_if (st : Store) (now : Int) (k : String) (p : String × CacheRecord)
    (hf : List.find? (fun q => q.1 == k) st = some p) :
    storeGet st now k = if lruIsStale now p.2 = true then none else some p.2.value := by
  unfold storeGet
  rw [hf]

theorem lruIsStale_mono (now1 now2 : Int) (e : CacheRecord)
    (hle : now1 ≤ now2) (h : lruIsStale now1 e = true) : lruIsStale now2 e = true := by
  unfold lruIsStale at h ⊢
  rcases hma : e.maxAge with _ | mm <;> simp_all <;> omega

theorem storeGet_none_mono (st : Store) (now1 now2 : Int) (k : String)
    (h : storeGet st now1 k = none) (hle : now1 ≤ now2) :
    storeGet st now2 k = none := by
  cases hf : List.find? (fun q => q.1 == k) st with
  | none =>
    unfold storeGet
    rw [hf]
  | some p =>
    rw [storeGet_eq_if st now1 k p hf] at h
    rw [storeGet_eq_if st now2 k p hf]
    by_cases hs1 : lruIsStale now1 p.2 = true
    · rw [if_pos (lruIsStale_mono now1 now2 p.2 hle hs1)]
    · rw [if_neg hs1] at h
      exact absurd h (by simp)

theorem storeGet_mem (st : Store) (now : Int) (k v : String)
    (h : storeGet st now k = some v) :
    ∃ p ∈ st, (p : String × CacheRecord).2.value = v := by
  cases hf : List.find? (fun q => q.1 == k) st with
  | none =>
    unfold storeGet at h
    rw [hf] at h
    exact absurd h (by simp)
  | some p =>
    rw [storeGet_eq_if st now k p hf] at h
    by_cases hs : lruIsStale now p.2 = true
    · rw [if_pos hs] at h
      exact absurd h (by simp)
    · rw [if_neg hs] at h
      simp only [Option.some.injEq] at h
      exact ⟨p, List.mem_of_find?_eq_some hf, h⟩

/-! ## Truthiness helpers -/

theorem strTruthy_some (q : String) (h : q ≠ "") : strTruthy (some q) = true := by
  simp [strTruthy, h]

theorem jsTruthyOpt_obj (fs : List (String × Json)) :
    jsTruthyOpt (some (Json.obj fs)) = true := rfl

/-! ## storeInCache characterizations -/

theorem storeInCache_post_write (st : Store) (now : Int) (req : Request)
    (gql : String) (q : String) (pq : Option Json)
    (gfs efs : List (String × Json)) (ccv : Json) (hints : List Json) (m : Int)
    (hm : req.method = Method.post) (hq : req.query = some q) (hqt : q ≠ "")
    (hpq : isPersistedQuery req = Except.ok pq)
    (hparse : jsonParse gql = some (Json.obj gfs))
    (hext : jsLookup gfs "extensions" = some (Json.obj efs))
    (hcc : jsLookup efs "cacheControl" = some ccv)
    (hccT : jsTruthy ccv = true)
    (hhints : jsMemTotal ccv "hints" = some (Json.arr hints))
    (hred : minAgeReduce hints = Except.ok m) :
    storeInCache st now req gql = Except.ok
      (storeSet st now (hashPostBody q)
        (jsonStringify (cacheEntryJson
          (jsonStringify (Json.obj (gfs.filter (fun p => p.1 != "extensions"))))
          now (m * 1000)))
        (m * 1000),
       [Effect.callNext]) := by
  unfold storeInCache
  rw [hpq]
  dsimp only []
  rw [if_pos (Or.inr ⟨hm, by rw [hq]; exact strTruthy_some q hqt⟩)]
  rw [hparse]
  try dsimp only []
  rw [show jsMemberE (Json.obj gfs) "extensions" = Except.ok (jsLookup gfs "extensions")
        from rfl]
  rw [hext]
  try dsimp only []
  have hmem : optMem (some (Json.obj efs)) "cacheControl" = some ccv := by
    simp [optMem, jsMemTotal, hcc]
  rw [if_pos ⟨jsTruthyOpt_obj efs, by rw [hmem]; simpa [jsTruthyOpt] using hccT⟩]
  rw [hmem]
  try dsimp only []
  rw [hhints]
  try dsimp only []
  rw [hred]
  try dsimp only []
  rw [hm]
  have hkey : (match Method.post, pq with
      | Method.get, some pqv => extractCacheKey pqv
      | _, _ => Except.ok (hashPostBody (req.query.getD ""))) =
      Except.ok (hashPostBody q) := by
    cases pq <;> simp [hq]
  rw [hkey]
  dsimp only []
  have hrm : removeExtensions gql = Except.ok
      (jsonStringify (Json.obj (gfs.filter (fun p => p.1 != "extensions")))) := by
    unfold removeExtensions
    rw [hparse]
  rw [hrm]

theorem storeInCache_get_write (st : Store) (now : Int) (req : Request)
    (gql : String) (pqv : Json) (key : String)
    (gfs efs : List (String × Json)) (ccv : Json) (hints : List Json) (m : Int)
    (hm : req.method = Method.get)
    (hpq : isPersistedQuery req = Except.ok (some pqv))
    (hpqt : jsTruthy pqv = true)
    (hkey : extractCacheKey pqv = Except.ok key)
    (hparse : jsonParse gql = some (Json.obj gfs))
    (hext : jsLookup gfs "extensions" = some (Json.obj efs))
    (hcc : jsLookup efs "cacheControl" = some ccv)
    (hccT : jsTruthy ccv = true)
    (hhints : jsMemTotal ccv "hints" = some (Json.arr hints))
    (hred : minAgeReduce hints = Except.ok m) :
    storeInCache st now req gql = Except.ok
      (storeSet st now key
        (jsonStringify (cacheEntryJson
          (jsonStringify (Json.obj (gfs.filter (fun p => p.1 != "extensions"))))
          now (m * 1000)))
        (m * 1000),
       [Effect.callNext]) := by
  unfold storeInCache
  rw [hpq]
  dsimp only []
  rw [if_pos (Or.inl ⟨hm, by simpa [jsTruthyOpt] using hpqt⟩)]
  rw [hparse]
  try dsimp only []
  rw [show jsMemberE (Json.obj gfs) "extensions" = Except.ok (jsLookup gfs "extensions")
        from rfl]
  rw [hext]
  try dsimp only []
  have hmem : optMem (some (Json.obj efs)) "cacheControl" = some ccv := by
    simp [optMem, jsMemTotal, hcc]
  rw [if_pos ⟨jsTruthyOpt_obj efs, by rw [hmem]; simpa [jsTruthyOpt] using hccT⟩]
  rw [hmem]
  try dsimp only []
  rw [hhints]
  try dsimp only []
  rw [hred]
  try dsimp only []
  rw [hm]
  rw [show (match Method.get, some pqv with
      | Method.get, some pqv => extractCacheKey pqv
      | _, _ => Except.ok (hashPostBody (req.query.getD ""))) =
      extractCacheKey pqv from rfl]
  rw [hkey]
  dsimp only []
  have hrm : removeExtensions gql = Except.ok
      (jsonStringify (Json.obj (gfs.filter (fun p => p.1 != "extensions")))) := by
    unfold removeExtensions
    rw [hparse]
  rw [hrm]

theorem storeInCache_no_directive (st : Store) (now : Int) (req : Request)
    (gql : String) (pq : Option Json) (g : Json)
    (hpq : isPersistedQuery req = Except.ok pq)
    (hparse : jsonParse gql = some g)
    (hng : g ≠ Json.null)
    (hno : ¬ (jsTruthyOpt (jsMemTotal g "extensions") = true ∧
              jsTruthyOpt (optMem (jsMemTotal g "extensions") "cacheControl") = true)) :
    storeInCache st now req gql = Except.ok (st, [Effect.callNext]) := by
  unfold storeInCache
  rw [hpq]
  dsimp only []
  by_cases hg : (req.method = Method.get ∧ jsTruthyOpt pq = true) ∨
      (req.method = Method.post ∧ strTruthy req.query = true)
  · rw [if_pos hg, hparse]
    try dsimp only []
    have hmm : jsMemberE g "extensions" = Except.ok (jsMemTotal g "extensions") := by
      cases g with
      | null => exact absurd rfl hng
      | bool b => rfl
      | num n => rfl
      | str s => rfl
      | arr xs => rfl
      | obj fs => rfl
    rw [hmm]
    try dsimp only []
    rw [if_neg hno]
  · rw [if_neg hg]

/-! ## getFromCacheIfAny characterizations -/

theorem gateTail_post (req : Request) (pq : Option Json)
    (hm : req.method = Method.post) : gateTail req pq = [Effect.callNext] := by
  unfold gateTail
  rw [if_neg]
  rintro ⟨h1, _⟩
  rw [hm] at h1
  exact absurd h1 (by simp)

theorem gateTail_falsy (req : Request) (pq : Option Json)
    (hpq : jsTruthyOpt pq = false) : gateTail req pq = [Effect.callNext] := by
  unfold gateTail
  rw [if_neg]
  rintro ⟨_, h2, _⟩
  rw [hpq] at h2
  exact absurd h2 (by simp)

theorem gateTail_noquery (req : Request) (pq : Option Json)
    (hm : req.method = Method.get) (hpq : jsTruthyOpt pq = true)
    (hq : strTruthy req.query = false) :
    gateTail req pq = sendContent pqnfBody false := by
  unfold gateTail
  rw [if_pos ⟨hm, hpq, hq⟩]

theorem gateTail_query (req : Request) (pq : Option Json)
    (hq : strTruthy req.query = true) : gateTail req pq = [Effect.callNext] := by
  unfold gateTail
  rw [if_neg]
  rintro ⟨_, _, h3⟩
  rw [hq] at h3
  exact absurd h3 (by simp)

theorem gate_post_miss (st : Store) (now : Int) (req : Request) (q : String)
    (pq : Option Json)
    (hm : req.method = Method.post) (hq : req.query = some q) (hqt : q ≠ "")
    (hpq : isPersistedQuery req = Except.ok pq)
    (hmiss : storeGet st now (hashPostBody q) = none) :
    getFromCacheIfAny st now req = Except.ok [Effect.callNext] := by
  unfold getFromCacheIfAny
  rw [hpq]
  try dsimp only []
  rw [if_pos ⟨hm, by rw [hq]; exact strTruthy_some q hqt⟩]
  rw [hq]
  try dsimp only []
  rw [show (some q).getD "" = q from rfl, hmiss]
  try dsimp only []
  rw [gateTail_post req pq hm]

theorem gate_post_hit (st : Store) (now : Int) (req : Request) (q v : String)
    (pq : Option Json) (vfs : List (String × Json)) (pl : String)
    (hm : req.method = Method.post) (hq : req.query = some q) (hqt : q ≠ "")
    (hpq : isPersistedQuery req = Except.ok pq)
    (hhit : storeGet st now (hashPostBody q) = some v)
    (hv : jsonParse v = some (Json.obj vfs))
    (hpl : jsLookup vfs "payload" = some (Json.str pl)) :
    getFromCacheIfAny st now req = Except.ok (sendContent pl true) := by
  unfold getFromCacheIfAny
  rw [hpq]
  try dsimp only []
  rw [if_pos ⟨hm, by rw [hq]; exact strTruthy_some q hqt⟩]
  rw [hq]
  try dsimp only []
  rw [show (some q).getD "" = q from rfl, hhit]
  try dsimp only []
  unfold readPostHit
  rw [hv]
  try dsimp only []
  rw [show jsMemTotal (Json.obj vfs) "payload" = jsLookup vfs "payload" from rfl, hpl]

theorem gate_get_hit (st : Store) (now : Int) (req : Request) (v : String)
    (pqv : Json) (key : String) (vfs : List (String × Json))
    (pl : String) (a d : Int)
    (hm : req.method = Method.get)
    (hpq : isPersistedQuery req = Except.ok (some pqv))
    (hpqt : jsTruthy pqv = true)
    (hkey : extractCacheKey pqv = Except.ok key)
    (hhit : storeGet st now key = some v)
    (hv : jsonParse v = some (Json.obj vfs))
    (hd : jsLookup vfs "duration" = some (Json.num d))
    (ha : jsLookup vfs "at" = some (Json.num a))
    (hpl : jsLookup vfs "payload" = some (Json.str pl)) :
    getFromCacheIfAny st now req = Except.ok
      (Effect.setHeader "Cache-Control"
        ("public, max-age=" ++ intStr (jsRound ((d : ℚ) / 1000 - ((now : ℚ) - (a : ℚ)) / 1000))
          ++ ", s-maxage=" ++ intStr (jsRound ((d : ℚ) / 1000 - ((now : ℚ) - (a : ℚ)) / 1000)))
        :: sendContent pl true) := by
  unfold getFromCacheIfAny
  rw [hpq]
  try dsimp only []
  rw [if_neg (by rw [hm]; rintro ⟨h1, _⟩; exact absurd h1 (by simp))]
  rw [if_pos ⟨hm, by simp [jsTruthyOpt, hpqt]⟩]
  rw [hkey]
  try dsimp only []
  rw [hhit]
  try dsimp only []
  unfold readGetHit
  rw [hv]
  try dsimp only []
  rw [show jsMemTotal (Json.obj vfs) "duration" = jsLookup vfs "duration" from rfl, hd,
      show jsMemTotal (Json.obj vfs) "at" = jsLookup vfs "at" from rfl, ha,
      show jsMemTotal (Json.obj vfs) "payload" = jsLookup vfs "payload" from rfl, hpl]

theorem gate_get_miss (st : Store) (now : Int) (req : Request)
    (pqv : Json) (key : String)
    (hm : req.method = Method.get)
    (hpq : isPersistedQuery req = Except.ok (some pqv))
    (hpqt : jsTruthy pqv = true)
    (hkey : extractCacheKey pqv = Except.ok key)
    (hmiss : storeGet st now key = none) :
    getFromCacheIfAny st now req = Except.ok (gateTail req (some pqv)) := by
  unfold getFromCacheIfAny
  rw [hpq]
  try dsimp only []
  rw [if_neg (by rw [hm]; rintro ⟨h1, _⟩; exact absurd h1 (by simp))]
  rw [if_pos ⟨hm, by simp [jsTruthyOpt, hpqt]⟩]
  rw [hkey]
  try dsimp only []
  rw [hmiss]

/-! ## Behavior is independent of a falsy descriptor -/

theorem isPersistedQuery_noDescriptor (req : Request) :
    isPersistedQuery (noDescriptor req) = Except.ok none := rfl

theorem jsMemberE_ok (j : Json) (k : String) (h : j ≠ Json.null) :
    jsMemberE j k = Except.ok (jsMemTotal j k) := by
  cases j with
  | null => exact absurd rfl h
  | bool b => rfl
  | num n => rfl
  | str s => rfl
  | arr xs => rfl
  | obj fs => rfl

theorem gate_noDescriptor_equiv (st : Store) (now : Int) (req : Request)
    (pq : Option Json)
    (hpq : isPersistedQuery req = Except.ok pq) (hf : jsTruthyOpt pq = false) :
    getFromCacheIfAny st now req = getFromCacheIfAny st now (noDescriptor req) := by
  unfold getFromCacheIfAny
  rw [hpq, isPersistedQuery_noDescriptor req]
  try dsimp only []
  rw [show (noDescriptor req).method = req.method from rfl,
      show (noDescriptor req).query = req.query from rfl]
  by_cases hpost : req.method = Method.post ∧ strTruthy req.query = true
  · rw [if_pos hpost, if_pos hpost]
    cases storeGet st now (hashPostBody (req.query.getD "")) with
    | some v => rfl
    | none =>
      rw [gateTail_falsy req pq hf]
      try rw [gateTail_falsy (noDescriptor req) none rfl]
  · rw [if_neg hpost, if_neg hpost]
    rw [if_neg (by rintro ⟨_, h2⟩; rw [hf] at h2; exact absurd h2 (by simp)),
        if_neg (by rintro ⟨_, h2⟩; simp [jsTruthyOpt] at h2)]
    rw [gateTail_falsy req pq hf]
    try rw [gateTail_falsy (noDescriptor req) none rfl]

theorem store_noDescriptor_equiv (st : Store) (now : Int) (req : Request)
    (gql : String) (pq : Option Json)
    (hpq : isPersistedQuery req = Except.ok pq) (hf : jsTruthyOpt pq = false) :
    storeInCache st now req gql = storeInCache st now (noDescriptor req) gql := by
  unfold storeInCache
  rw [hpq, isPersistedQuery_noDescriptor req]
  try dsimp only []
  rw [show (noDescriptor req).method = req.method from rfl,
      show (noDescriptor req).query = req.query from rfl]
  by_cases hpost : req.method = Method.post ∧ strTruthy req.query = true
  · rw [if_pos (Or.inr hpost), if_pos (Or.inr hpost)]
    try rw [hpost.1]
    try rcases jsonParse gql with _ | g
    all_goals rfl
  · have hguard : ¬ ((req.method = Method.get ∧ jsTruthyOpt pq = true) ∨
        (req.method = Method.post ∧ strTruthy req.query = true)) := by
      rintro (⟨_, h2⟩ | h2)
      · rw [hf] at h2; exact absurd h2 (by simp)
      · exact hpost h2
    have hguard2 : ¬ ((req.method = Method.get ∧ jsTruthyOpt (none : Option Json) = true) ∨
        (req.method = Method.post ∧ strTruthy req.query = true)) := by
      rintro (⟨_, h2⟩ | h2)
      · simp [jsTruthyOpt] at h2
      · exact hpost h2
    rw [if_neg hguard, if_neg hguard2]

/-! ## Effect counting -/

theorem counts_sendContent (v : String) (hit : Bool) :
    countEnds (sendContent v hit) = 1 ∧ countNexts (sendContent v hit) = 0 ∧
      countWrites (sendContent v hit) = 1 := by
  cases hit <;> exact ⟨rfl, rfl, rfl⟩

theorem counts_header_sendContent (n hv v : String) (hit : Bool) :
    countEnds (Effect.setHeader n hv :: sendContent v hit) = 1 ∧
      countNexts (Effect.setHeader n hv :: sendContent v hit) = 0 ∧
      countWrites (Effect.setHeader n hv :: sendContent v hit) = 1 := by
  cases hit <;> exact ⟨rfl, rfl, rfl⟩

theorem counts_next :
    countEnds [Effect.callNext] = 0 ∧ countNexts [Effect.callNext] = 1 ∧
      countWrites [Effect.callNext] = 0 := ⟨rfl, rfl, rfl⟩

theorem gateTail_cases (req : Request) (pq : Option Json) :
    gateTail req pq = sendContent pqnfBody false ∨ gateTail req pq = [Effect.callNext] := by
  unfold gateTail
  split
  · exact Or.inl rfl
  · exact Or.inr rfl

/-! ## extractCacheKey never throws on a truthy descriptor -/

theorem extractCacheKey_ok (pqv : Json) (h : jsTruthy pqv = true) :
    extractCacheKey pqv = Except.ok
      (jsTemplate (jsMemTotal pqv "version") ++ "." ++ jsTemplate (jsMemTotal pqv "sha256Hash")) := by
  have hnn : pqv ≠ Json.null := by
    intro he
    rw [he] at h
    exact absurd h (by simp [jsTruthy])
  unfold extractCacheKey
  rw [jsMemberE_ok pqv "version" hnn, jsMemberE_ok pqv "sha256Hash" hnn]

/-! ## jsLookup after deleting the extensions key -/

theorem jsLookup_filter_self (fs : List (String × Json)) :
    jsLookup (fs.filter (fun p => p.1 != "extensions")) "extensions" = none := by
  induction fs with
  | nil => rfl
  | cons p fs ih =>
    by_cases hp : p.1 = "extensions"
    · rw [List.filter_cons_of_neg (by simp [hp])]
      exact ih
    · rw [List.filter_cons_of_pos (by simp [hp])]
      unfold jsLookup
      rw [List.find?_cons_of_neg _ (by simp [hp])]
      exact ih

theorem jsLookup_filter_other (fs : List (String × Json)) (k : String)
    (hk : k ≠ "extensions") :
    jsLookup (fs.filter (fun p => p.1 != "extensions")) k = jsLookup fs k := by
  induction fs with
  | nil => rfl
  | cons p fs ih =>
    by_cases hp : p.1 = "extensions"
    · rw [List.filter_cons_of_neg (by simp [hp])]
      unfold jsLookup
      rw [List.find?_cons_of_neg _ (by simp [hp, Ne.symm hk])]
      exact ih
    · rw [List.filter_cons_of_pos (by simp [hp])]
      by_cases hpk : p.1 = k
      · unfold jsLookup
        rw [List.find?_cons_of_pos _ (by simp [hpk]),
            List.find?_cons_of_pos _ (by simp [hpk])]
      · unfold jsLookup
        rw [List.find?_cons_of_neg _ (by simp [hpk]),
            List.find?_cons_of_neg _ (by simp [hpk])]
        exact ih

/-! ## The hints reduce -/

theorem minAgeReduce_map_from (ms : List Int) :
    ∀ (m : Int), (ms.map (fun x => Json.obj [("maxAge", Json.num x)])).foldl
      minAgeStep (Except.ok m) = Except.ok (ms.foldl min m) := by
  induction ms with
  | nil => intro m; rfl
  | cons x ms ih =>
    intro m
    simp only [List.map_cons, List.foldl_cons]
    have hstep : minAgeStep (Except.ok m) (Json.obj [("maxAge", Json.num x)]) =
        Except.ok (min m x) := by
      unfold minAgeStep
      rw [show jsMemberE (Json.obj [("maxAge", Json.num x)]) "maxAge" =
            Except.ok (some (Json.num x)) from rfl]
      try dsimp only []
      by_cases hx : x < m
      · rw [if_pos hx]
        congr 1
        omega
      · rw [if_neg hx]
        congr 1
        omega
    rw [hstep, ih (min m x)]

theorem minAgeReduce_map (ms : List Int) :
    minAgeReduce (ms.map (fun x => Json.obj [("maxAge", Json.num x)])) =
      Except.ok (ms.foldl min 60) :=
  minAgeReduce_map_from ms 60

theorem foldl_min_le_init (ms : List Int) : ∀ (b : Int), ms.foldl min b ≤ b := by
  induction ms with
  | nil => intro b; exact le_refl b
  | cons x ms ih =>
    intro b
    simp only [List.foldl_cons]
    calc ms.foldl min (min b x) ≤ min b x := ih (min b x)
    _ ≤ b := min_le_left b x

/-! ## The gate takes exactly one terminal action on benign input -/

theorem strTruthy_iff (o : Option String) (h : strTruthy o = true) :
    ∃ q, o = some q ∧ q ≠ "" := by
  cases o with
  | none => exact absurd h (by simp [strTruthy])
  | some q =>
    refine ⟨q, rfl, ?_⟩
    intro he
    subst he
    exact absurd h (by simp [strTruthy])

theorem benign_ipq (req : Request) (hb : ExtensionsBenign req) :
    ∃ pq, isPersistedQuery req = Except.ok pq := by
  cases hre : req.extensions with
  | none =>
    refine ⟨none, ?_⟩
    unfold isPersistedQuery
    rw [hre]
  | some s =>
    by_cases hs : s = ""
    · refine ⟨none, ?_⟩
      unfold isPersistedQuery
      rw [hre]
      try dsimp only []
      rw [if_pos (by simp [hs])]
    · obtain ⟨j, hj, hnn⟩ := hb s hre hs
      refine ⟨jsMemTotal j "persistedQuery", ?_⟩
      unfold isPersistedQuery
      rw [hre]
      try dsimp only []
      rw [if_neg (by simp [hs]), hj]
      try dsimp only []
      rw [jsMemberE_ok j _ hnn]

theorem wf_value (st : Store) (hw : WellFormedStore st) (now : Int) (k v : String)
    (h : storeGet st now k = some v) :
    ∃ fs q a d, jsonParse v = some (Json.obj fs) ∧
      jsLookup fs "payload" = some (Json.str q) ∧
      jsLookup fs "at" = some (Json.num a) ∧
      jsLookup fs "duration" = some (Json.num d) := by
  obtain ⟨p, hmem, hval⟩ := storeGet_mem st now k v h
  obtain ⟨fs, hparse, ⟨q, hq⟩, ⟨a, ha⟩, ⟨d, hd⟩⟩ := hw p hmem
  rw [hval] at hparse
  exact ⟨fs, q, a, d, hparse, hq, ha, hd⟩

theorem gate_fallthrough (st : Store) (now : Int) (req : Request) (pq : Option Json)
    (hpq : isPersistedQuery req = Except.ok pq)
    (h1 : ¬ (req.method = Method.post ∧ strTruthy req.query = true))
    (h2 : ¬ (req.method = Method.get ∧ jsTruthyOpt pq = true)) :
    getFromCacheIfAny st now req = Except.ok (gateTail req pq) := by
  unfold getFromCacheIfAny
  rw [hpq]
  try dsimp only []
  rw [if_neg h1, if_neg h2]

theorem counts_tail (req : Request) (pq : Option Json) :
    countEnds (gateTail req pq) + countNexts (gateTail req pq) = 1 ∧
      countWrites (gateTail req pq) = countEnds (gateTail req pq) := by
  rcases gateTail_cases req pq with h | h <;> rw [h]
  · obtain ⟨h1, h2, h3⟩ := counts_sendContent pqnfBody false
    rw [h1, h2, h3]
    exact ⟨rfl, rfl⟩
  · obtain ⟨h1, h2, h3⟩ := counts_next
    rw [h1, h2, h3]
    exact ⟨rfl, rfl⟩

theorem gate_exactly_one (st : Store) (now : Int) (req : Request)
    (hb : ExtensionsBenign req) (hw : WellFormedStore st) :
    ∃ effs, getFromCacheIfAny st now req = Except.ok effs ∧
      countEnds effs + countNexts effs = 1 ∧
      countWrites effs = countEnds effs := by
  obtain ⟨pq, hpq⟩ := benign_ipq req hb
  by_cases hpost : req.method = Method.post ∧ strTruthy req.query = true
  · obtain ⟨q, hq, hqt⟩ := strTruthy_iff req.query hpost.2
    cases hsg : storeGet st now (hashPostBody q) with
    | some v =>
      obtain ⟨fs, pl, a, d, hparse, hpl, ha, hd⟩ := wf_value st hw now _ v hsg
      refine ⟨sendContent pl true,
        gate_post_hit st now req q v pq fs pl hpost.1 hq hqt hpq hsg hparse hpl, ?_⟩
      obtain ⟨h1, h2, h3⟩ := counts_sendContent pl true
      rw [h1, h2, h3]
      exact ⟨rfl, rfl⟩
    | none =>
      refine ⟨[Effect.callNext], ?_, ?_⟩
      · have h := gate_post_miss st now req q pq hpost.1 hq hqt hpq hsg
        exact h
      · obtain ⟨h1, h2, h3⟩ := counts_next
        rw [h1, h2, h3]
        exact ⟨rfl, rfl⟩
  · by_cases hget : req.method = Method.get ∧ jsTruthyOpt pq = true
    · cases pq with
      | none => exact absurd hget.2 (by simp [jsTruthyOpt])
      | some pqv =>
        have hpqt : jsTruthy pqv = true := hget.2
        cases hsg : storeGet st now
            (jsTemplate (jsMemTotal pqv "version") ++ "." ++
              jsTemplate (jsMemTotal pqv "sha256Hash")) with
        | some v =>
          obtain ⟨fs, pl, a, d, hparse, hpl, ha, hd⟩ := wf_value st hw now _ v hsg
          refine ⟨_, gate_get_hit st now req v pqv _ fs pl a d hget.1 hpq hpqt
            (extractCacheKey_ok pqv hpqt) hsg hparse hd ha hpl, ?_⟩
          obtain ⟨h1, h2, h3⟩ := counts_header_sendContent _ _ pl true
          rw [h1, h2, h3]
          exact ⟨rfl, rfl⟩
        | none =>
          refine ⟨gateTail req (some pqv),
            gate_get_miss st now req pqv _ hget.1 hpq hpqt
              (extractCacheKey_ok pqv hpqt) hsg, ?_⟩
          exact counts_tail req (some pqv)
    · exact ⟨gateTail req pq, gate_fallthrough st now req pq hpq hpost hget,
        counts_tail req pq⟩

/-! ## Claim theorems -/

/-- Claim C1, counterexample: on a response whose only freshness hint is
maxAge 0, storeInCache stores a CacheEntry whose duration field is 0, not
the claimed 1000 floor, and passes 0 as the TTL, which createLRUCache set
treats as absent and stores the entry with no expiry (maxAge none). -/
theorem claim1_counterexample :
    storeInCache [] 0 cexPostReq cexGqlZero = Except.ok
      ([(hashPostBody "\x7ba\x7d",
         ⟨jsonStringify (cacheEntryJson "\x7b\"data\":1\x7d" 0 0), 0, none⟩)],
       [Effect.callNext]) ∧
    jsLookup [("payload", Json.str "\x7b\"data\":1\x7d"), ("at", Json.num 0),
      ("duration", Json.num 0)] "duration" = some (Json.num 0) ∧
    ¬ (1000 ≤ (0 : Int)) := by
  refine ⟨rfl, rfl, by decide⟩

/-- Claim C1, amended: for every caching-eligible request, a full-payload
POST keyed by hashPostBody as well as a descriptor-bearing GET keyed by
extractCacheKey, when the computed minimum freshness hint minAge is 0,
storeInCache stores the entry with durationMs equal to 0 (not coerced to
any floor) and passes 0 as the TTL to the set of the store, which
createLRUCache treats as a falsy maxAge and therefore stores the entry
with no TTL at all. -/
theorem claim1_zero_hint (st : Store) (now : Int) (req : Request)
    (gql key : String) (pq : Option Json) (gfs efs : List (String × Json))
    (ccv : Json) (hints : List Json)
    (hpq : isPersistedQuery req = Except.ok pq)
    (hkey : (req.method = Method.post ∧ strTruthy req.query = true ∧
             key = hashPostBody (req.query.getD "")) ∨
            (req.method = Method.get ∧ ∃ pqv, pq = some pqv ∧ jsTruthy pqv = true ∧
             extractCacheKey pqv = Except.ok key))
    (hparse : jsonParse gql = some (Json.obj gfs))
    (hext : jsLookup gfs "extensions" = some (Json.obj efs))
    (hcc : jsLookup efs "cacheControl" = some ccv)
    (hccT : jsTruthy ccv = true)
    (hhints : jsMemTotal ccv "hints" = some (Json.arr hints))
    (hred : minAgeReduce hints = Except.ok 0) :
    storeInCache st now req gql = Except.ok
      (lruSet st now key
        (jsonStringify (cacheEntryJson
          (jsonStringify (Json.obj (gfs.filter (fun p => p.1 != "extensions"))))
          now 0))
        none,
       [Effect.callNext]) := by
  rcases hkey with ⟨hm, hqt, hk⟩ | ⟨hm, pqv, hpv, hpqt, hk⟩
  · obtain ⟨q, hq, hqne⟩ := strTruthy_iff req.query hqt
    rw [hq] at hk
    simp only [Option.getD_some] at hk
    subst hk
    have h := storeInCache_post_write st now req gql q pq gfs efs ccv hints 0
      hm hq hqne hpq hparse hext hcc hccT hhints hred
    rw [h]
    norm_num [storeSet]
  · subst hpv
    have h := storeInCache_get_write st now req gql pqv key gfs efs ccv hints 0
      hm hpq hpqt hk hparse hext hcc hccT hhints hred
    rw [h]
    norm_num [storeSet]

/-- Claim C1, witness for the amended theorem at a concrete input on the
descriptor-bearing GET path (the counterexample already exercises the
POST path concretely). -/
theorem claim1_zero_hint_witness :
    storeInCache [] 0
      ⟨Method.get, none,
       some "\x7b\"persistedQuery\":\x7b\"version\":\"1\",\"sha256Hash\":\"abc\"\x7d\x7d"⟩
      cexGqlZero = Except.ok
      (lruSet [] 0 "1.abc"
        (jsonStringify (cacheEntryJson "\x7b\"data\":1\x7d" 0 0)) none,
       [Effect.callNext]) :=
  claim1_zero_hint [] 0
    ⟨Method.get, none,
     some "\x7b\"persistedQuery\":\x7b\"version\":\"1\",\"sha256Hash\":\"abc\"\x7d\x7d"⟩
    cexGqlZero "1.abc"
    (some (Json.obj [("version", Json.str "1"), ("sha256Hash", Json.str "abc")]))
    [("data", Json.num 1),
     ("extensions", Json.obj [("cacheControl",
        Json.obj [("hints", Json.arr [Json.obj [("maxAge", Json.num 0)]])])])]
    [("cacheControl", Json.obj [("hints", Json.arr [Json.obj [("maxAge", Json.num 0)]])])]
    (Json.obj [("hints", Json.arr [Json.obj [("maxAge", Json.num 0)]])])
    [Json.obj [("maxAge", Json.num 0)]]
    rfl
    (Or.inr ⟨rfl, Json.obj [("version", Json.str "1"), ("sha256Hash", Json.str "abc")],
      rfl, rfl, by simp [extractCacheKey, jsMemberE, jsLookup, jsTemplate, jsTemplateVal]⟩)
    rfl rfl rfl rfl rfl rfl

/-- Claim C2, counterexample: an extensions field that is not parseable
JSON does not behave as if no descriptor were present; JSON.parse throws
inside isPersistedQuery, aborting getFromCacheIfAny with an error rather
than falling through like the descriptor-free request does. -/
theorem claim2_counterexample :
    getFromCacheIfAny [] 0 cexBadExtReq = Except.error "SyntaxError" ∧
    getFromCacheIfAny [] 0 (noDescriptor cexBadExtReq) = Except.ok [Effect.callNext] ∧
    getFromCacheIfAny [] 0 cexBadExtReq ≠
      getFromCacheIfAny [] 0 (noDescriptor cexBadExtReq) := by
  refine ⟨rfl, rfl, ?_⟩
  rw [show getFromCacheIfAny [] 0 cexBadExtReq = Except.error "SyntaxError" from rfl,
      show getFromCacheIfAny [] 0 (noDescriptor cexBadExtReq) =
        Except.ok [Effect.callNext] from rfl]
  exact fun h => Except.noConfusion h

/-- Claim C2, amended: an extensions field that parses as JSON other than
null but lacks a truthy persistedQuery property is treated exactly as if
no descriptor were present, by both getFromCacheIfAny and storeInCache; an
extensions string that does not parse (or parses to null) instead makes
isPersistedQuery throw. -/
theorem claim2_no_descriptor (st : Store) (now : Int) (req : Request)
    (gql s : String) (j : Json)
    (hre : req.extensions = some s) (hs : s ≠ "")
    (hj : jsonParse s = some j) (hnn : j ≠ Json.null)
    (hfalsy : jsTruthyOpt (jsMemTotal j "persistedQuery") = false) :
    isPersistedQuery req = Except.ok (jsMemTotal j "persistedQuery") ∧
    getFromCacheIfAny st now req = getFromCacheIfAny st now (noDescriptor req) ∧
    storeInCache st now req gql = storeInCache st now (noDescriptor req) gql := by
  have hpq : isPersistedQuery req = Except.ok (jsMemTotal j "persistedQuery") := by
    unfold isPersistedQuery
    rw [hre]
    try dsimp only []
    rw [if_neg (by simp [hs]), hj]
    try dsimp only []
    rw [jsMemberE_ok j _ hnn]
  exact ⟨hpq, gate_noDescriptor_equiv st now req _ hpq hfalsy,
    store_noDescriptor_equiv st now req gql _ hpq hfalsy⟩

/-- Claim C2, witness for the amended theorem at a concrete input. -/
theorem claim2_no_descriptor_witness :
    isPersistedQuery ⟨Method.get, none, some "\x7b\x7d"⟩ =
      Except.ok (jsMemTotal (Json.obj []) "persistedQuery") ∧
    getFromCacheIfAny [] 0 ⟨Method.get, none, some "\x7b\x7d"⟩ =
      getFromCacheIfAny [] 0 (noDescriptor ⟨Method.get, none, some "\x7b\x7d"⟩) ∧
    storeInCache [] 0 ⟨Method.get, none, some "\x7b\x7d"⟩ "\x7b\x7d" =
      storeInCache [] 0 (noDescriptor ⟨Method.get, none, some "\x7b\x7d"⟩) "\x7b\x7d" :=
  claim2_no_descriptor [] 0 ⟨Method.get, none, some "\x7b\x7d"⟩ "\x7b\x7d" "\x7b\x7d"
    (Json.obj []) rfl (by decide) rfl (fun h => Json.noConfusion h) rfl

/-- Claim C3: a POST with nonempty query text that misses the cache, runs
the engine, and is stored by storeInCache with a positive minimum
freshness hint, is answered on an identical second POST before the TTL
elapses straight from the store: the gate emits the cached payload with
the X-Cache HIT header and never calls next. -/
theorem claim3_second_post_hit (st : Store) (now1 now2 : Int) (req : Request)
    (gql q : String) (pq : Option Json) (gfs efs : List (String × Json))
    (ccv : Json) (hints : List Json) (m : Int)
    (hm : req.method = Method.post) (hq : req.query = some q) (hqt : q ≠ "")
    (hpq : isPersistedQuery req = Except.ok pq)
    (hmiss : storeGet st now1 (hashPostBody q) = none)
    (hparse : jsonParse gql = some (Json.obj gfs))
    (hext : jsLookup gfs "extensions" = some (Json.obj efs))
    (hcc : jsLookup efs "cacheControl" = some ccv)
    (hccT : jsTruthy ccv = true)
    (hhints : jsMemTotal ccv "hints" = some (Json.arr hints))
    (hred : minAgeReduce hints = Except.ok m)
    (hpos : 0 < m)
    (htime : now2 - now1 ≤ m * 1000) :
    getFromCacheIfAny st now1 req = Except.ok [Effect.callNext] ∧
    storeInCache st now1 req gql = Except.ok
      (storeSet st now1 (hashPostBody q)
        (jsonStringify (cacheEntryJson
          (jsonStringify (Json.obj (gfs.filter (fun p => p.1 != "extensions"))))
          now1 (m * 1000))) (m * 1000),
       [Effect.callNext]) ∧
    getFromCacheIfAny
      (storeSet st now1 (hashPostBody q)
        (jsonStringify (cacheEntryJson
          (jsonStringify (Json.obj (gfs.filter (fun p => p.1 != "extensions"))))
          now1 (m * 1000))) (m * 1000)) now2 req =
      Except.ok (sendContent
        (jsonStringify (Json.obj (gfs.filter (fun p => p.1 != "extensions")))) true) ∧
    Effect.setHeader "X-Cache" "HIT" ∈ sendContent
      (jsonStringify (Json.obj (gfs.filter (fun p => p.1 != "extensions")))) true ∧
    Effect.callNext ∉ sendContent
      (jsonStringify (Json.obj (gfs.filter (fun p => p.1 != "extensions")))) true := by
  refine ⟨gate_post_miss st now1 req q pq hm hq hqt hpq hmiss,
    storeInCache_post_write st now1 req gql q pq gfs efs ccv hints m
      hm hq hqt hpq hparse hext hcc hccT hhints hred,
    ?_, by simp [sendContent], by simp [sendContent]⟩
  apply gate_post_hit _ now2 req q _ pq
    [("payload", Json.str (jsonStringify (Json.obj (gfs.filter (fun p => p.1 != "extensions"))))),
     ("at", Json.num now1), ("duration", Json.num (m * 1000))]
    _ hm hq hqt hpq
  · exact storeGet_set_self st now1 now2 _ _ (m * 1000) (by omega) htime
  · exact cacheEntry_roundtrip _ now1 (m * 1000)
  · rfl

/-- Claim C3, witness at a concrete input: hint 65 caps to minAge 60,
and the second POST at 1000 ms hits. -/
theorem claim3_second_post_hit_witness :
    getFromCacheIfAny [] 0 cexPostReq = Except.ok [Effect.callNext] ∧
    storeInCache [] 0 cexPostReq
      "\x7b\"data\":1,\"extensions\":\x7b\"cacheControl\":\x7b\"hints\":[\x7b\"maxAge\":65\x7d]\x7d\x7d\x7d" =
      Except.ok
      (storeSet [] 0 (hashPostBody "\x7ba\x7d")
        (jsonStringify (cacheEntryJson "\x7b\"data\":1\x7d" 0 60000)) 60000,
       [Effect.callNext]) ∧
    getFromCacheIfAny
      (storeSet [] 0 (hashPostBody "\x7ba\x7d")
        (jsonStringify (cacheEntryJson "\x7b\"data\":1\x7d" 0 60000)) 60000) 1000 cexPostReq =
      Except.ok (sendContent "\x7b\"data\":1\x7d" true) ∧
    Effect.setHeader "X-Cache" "HIT" ∈ sendContent "\x7b\"data\":1\x7d" true ∧
    Effect.callNext ∉ sendContent "\x7b\"data\":1\x7d" true :=
  claim3_second_post_hit [] 0 1000 cexPostReq
    "\x7b\"data\":1,\"extensions\":\x7b\"cacheControl\":\x7b\"hints\":[\x7b\"maxAge\":65\x7d]\x7d\x7d\x7d"
    "\x7ba\x7d" none
    [("data", Json.num 1),
     ("extensions", Json.obj [("cacheControl",
        Json.obj [("hints", Json.arr [Json.obj [("maxAge", Json.num 65)]])])])]
    [("cacheControl", Json.obj [("hints", Json.arr [Json.obj [("maxAge", Json.num 65)]])])]
    (Json.obj [("hints", Json.arr [Json.obj [("maxAge", Json.num 65)]])])
    [Json.obj [("maxAge", Json.num 65)]] 60
    rfl rfl (by decide) rfl rfl rfl rfl rfl rfl rfl rfl (by decide) (by decide)

/-- Claim C4: hashPostBody removes every whitespace character from the
query text (runs collapse to nothing) and digests the residue with
SHA-256 in hexadecimal, so two query texts with the same residue get the
same fingerprint. -/
theorem claim4_whitespace_fingerprint (a b : String)
    (h : stripWs a = stripWs b) :
    hashPostBody a = sha256hex (hashjsToBytes (stripWs a)) ∧
    stripWs a = String.mk (a.data.filter (fun c => !(isJsSpace c))) ∧
    hashPostBody a = hashPostBody b := by
  refine ⟨rfl, rfl, ?_⟩
  unfold hashPostBody
  rw [h]

/-- Claim C4, witness: two renderings of the same query differing only in
whitespace share the fingerprint. -/
theorem claim4_whitespace_fingerprint_witness :
    hashPostBody "\x7b books \x7b title \x7d \x7d" =
      sha256hex (hashjsToBytes (stripWs "\x7b books \x7b title \x7d \x7d")) ∧
    stripWs "\x7b books \x7b title \x7d \x7d" =
      String.mk (("\x7b books \x7b title \x7d \x7d" : String).data.filter
        (fun c => !(isJsSpace c))) ∧
    hashPostBody "\x7b books \x7b title \x7d \x7d" =
      hashPostBody "\x7bbooks\x7btitle\x7d\x7d" :=
  claim4_whitespace_fingerprint "\x7b books \x7b title \x7d \x7d"
    "\x7bbooks\x7btitle\x7d\x7d" rfl

/-- Claim C5: when the engine response carries no freshness directive at
all (its extensions or cacheControl is absent or falsy), storeInCache
writes nothing to the store and only calls next; consequently a second
identical POST still reaches the engine: a gate miss at the first time
stays a miss at any later time over the unchanged store. -/
theorem claim5_no_hints_passthrough (st : Store) (now1 : Int) (req : Request)
    (gql : String) (pq : Option Json) (gfs : List (String × Json))
    (hpq : isPersistedQuery req = Except.ok pq)
    (hparse : jsonParse gql = some (Json.obj gfs))
    (hno : ¬ (jsTruthyOpt (jsMemTotal (Json.obj gfs) "extensions") = true ∧
              jsTruthyOpt (optMem (jsMemTotal (Json.obj gfs) "extensions")
                "cacheControl") = true)) :
    storeInCache st now1 req gql = Except.ok (st, [Effect.callNext]) ∧
    (∀ (q : String) (now2 : Int), req.method = Method.post → req.query = some q →
      q ≠ "" → now1 ≤ now2 → storeGet st now1 (hashPostBody q) = none →
      getFromCacheIfAny st now2 req = Except.ok [Effect.callNext]) := by
  refine ⟨storeInCache_no_directive st now1 req gql pq (Json.obj gfs) hpq hparse
    (fun h => Json.noConfusion h) hno, ?_⟩
  intro q now2 hm hq hqt hle hmiss
  exact gate_post_miss st now2 req q pq hm hq hqt hpq
    (storeGet_none_mono st now1 now2 _ hmiss hle)

/-- Claim C5, witness: a response without extensions is not cached and
the second identical POST still falls through to the engine. -/
theorem claim5_no_hints_passthrough_witness :
    storeInCache [] 0 cexPostReq "\x7b\"data\":1\x7d" =
      Except.ok ([], [Effect.callNext]) ∧
    getFromCacheIfAny [] 99999 cexPostReq = Except.ok [Effect.callNext] := by
  have h := claim5_no_hints_passthrough [] 0 cexPostReq "\x7b\"data\":1\x7d" none
    [("data", Json.num 1)] rfl rfl (by decide)
  exact ⟨h.1, h.2 "\x7ba\x7d" 99999 rfl rfl (by decide) (by decide) rfl⟩

/-- Claim C6: on a GET cache hit with a valid descriptor, the gate
computes the remaining freshness with Math.round over durationMs and the
entry age, emits Cache-Control public max-age and s-maxage headers
advertising it, sends the stored payload with X-Cache HIT, and does not
call next. -/
theorem claim6_get_hit_response (st : Store) (now : Int) (req : Request)
    (v : String) (pqv : Json) (key : String) (vfs : List (String × Json))
    (pl : String) (a d : Int)
    (hm : req.method = Method.get)
    (hpq : isPersistedQuery req = Except.ok (some pqv))
    (hpqt : jsTruthy pqv = true)
    (hkey : extractCacheKey pqv = Except.ok key)
    (hhit : storeGet st now key = some v)
    (hv : jsonParse v = some (Json.obj vfs))
    (hd : jsLookup vfs "duration" = some (Json.num d))
    (ha : jsLookup vfs "at" = some (Json.num a))
    (hpl : jsLookup vfs "payload" = some (Json.str pl)) :
    getFromCacheIfAny st now req = Except.ok
      (Effect.setHeader "Cache-Control"
        ("public, max-age=" ++ intStr (jsRound ((d : ℚ) / 1000 - ((now : ℚ) - (a : ℚ)) / 1000))
          ++ ", s-maxage=" ++ intStr (jsRound ((d : ℚ) / 1000 - ((now : ℚ) - (a : ℚ)) / 1000)))
        :: sendContent pl true) ∧
    Effect.setHeader "X-Cache" "HIT" ∈
      (Effect.setHeader "Cache-Control"
        ("public, max-age=" ++ intStr (jsRound ((d : ℚ) / 1000 - ((now : ℚ) - (a : ℚ)) / 1000))
          ++ ", s-maxage=" ++ intStr (jsRound ((d : ℚ) / 1000 - ((now : ℚ) - (a : ℚ)) / 1000)))
        :: sendContent pl true) ∧
    Effect.callNext ∉
      (Effect.setHeader "Cache-Control"
        ("public, max-age=" ++ intStr (jsRound ((d : ℚ) / 1000 - ((now : ℚ) - (a : ℚ)) / 1000))
          ++ ", s-maxage=" ++ intStr (jsRound ((d : ℚ) / 1000 - ((now : ℚ) - (a : ℚ)) / 1000)))
        :: sendContent pl true) :=
  ⟨gate_get_hit st now req v pqv key vfs pl a d hm hpq hpqt hkey hhit hv hd ha hpl,
   by simp [sendContent], by simp [sendContent]⟩

/-- Claim C6, witness at a concrete hit 30500 ms into a 60000 ms entry. -/
theorem claim6_get_hit_response_witness :
    getFromCacheIfAny
      [("1.abc", ⟨"\x7b\"payload\":\"\x7b\x7d\",\"at\":0,\"duration\":60000\x7d", 0, some 60000⟩)]
      30500
      ⟨Method.get, none,
       some "\x7b\"persistedQuery\":\x7b\"version\":\"1\",\"sha256Hash\":\"abc\"\x7d\x7d"⟩ =
      Except.ok
      (Effect.setHeader "Cache-Control"
        ("public, max-age=" ++
            intStr (jsRound ((60000 : ℚ) / 1000 - ((30500 : ℚ) - (0 : ℚ)) / 1000))
          ++ ", s-maxage=" ++
            intStr (jsRound ((60000 : ℚ) / 1000 - ((30500 : ℚ) - (0 : ℚ)) / 1000)))
        :: sendContent "\x7b\x7d" true) ∧
    Effect.setHeader "X-Cache" "HIT" ∈
      (Effect.setHeader "Cache-Control"
        ("public, max-age=" ++
            intStr (jsRound ((60000 : ℚ) / 1000 - ((30500 : ℚ) - (0 : ℚ)) / 1000))
          ++ ", s-maxage=" ++
            intStr (jsRound ((60000 : ℚ) / 1000 - ((30500 : ℚ) - (0 : ℚ)) / 1000)))
        :: sendContent "\x7b\x7d" true) ∧
    Effect.callNext ∉
      (Effect.setHeader "Cache-Control"
        ("public, max-age=" ++
            intStr (jsRound ((60000 : ℚ) / 1000 - ((30500 : ℚ) - (0 : ℚ)) / 1000))
          ++ ", s-maxage=" ++
            intStr (jsRound ((60000 : ℚ) / 1000 - ((30500 : ℚ) - (0 : ℚ)) / 1000)))
        :: sendContent "\x7b\x7d" true) :=
  claim6_get_hit_response
    [("1.abc", ⟨"\x7b\"payload\":\"\x7b\x7d\",\"at\":0,\"duration\":60000\x7d", 0, some 60000⟩)]
    30500
    ⟨Method.get, none,
     some "\x7b\"persistedQuery\":\x7b\"version\":\"1\",\"sha256Hash\":\"abc\"\x7d\x7d"⟩
    "\x7b\"payload\":\"\x7b\x7d\",\"at\":0,\"duration\":60000\x7d"
    (Json.obj [("version", Json.str "1"), ("sha256Hash", Json.str "abc")])
    "1.abc"
    [("payload", Json.str "\x7b\x7d"), ("at", Json.num 0), ("duration", Json.num 60000)]
    "\x7b\x7d" 0 60000
    rfl rfl rfl (by simp [extractCacheKey, jsMemberE, jsLookup, jsTemplate, jsTemplateVal])
    rfl rfl rfl rfl rfl

/-- Claim C7: the hints reduce of storeInCache folds the maxAge values
with initial value 60, computing the minimum of 60 and every hint; the
result never exceeds 60 and an empty hint list in the reduction yields
60. -/
theorem claim7_minage_fold (ms : List Int) :
    minAgeReduce (ms.map (fun x => Json.obj [("maxAge", Json.num x)])) =
      Except.ok (ms.foldl min 60) ∧
    ms.foldl min 60 ≤ 60 ∧
    minAgeReduce [] = Except.ok 60 :=
  ⟨minAgeReduce_map ms, foldl_min_le_init ms 60, rfl⟩

/-- Claim C8: a GET carrying a truthy descriptor that misses the cache
and has no inline query text is answered with exactly the body of
PersistedQueryNotFound at the default success status 200, and next is
never called. -/
theorem claim8_persisted_query_not_found (st : Store) (now : Int) (req : Request)
    (pqv : Json) (key : String)
    (hm : req.method = Method.get)
    (hpq : isPersistedQuery req = Except.ok (some pqv))
    (hpqt : jsTruthy pqv = true)
    (hkey : extractCacheKey pqv = Except.ok key)
    (hmiss : storeGet st now key = none)
    (hq : strTruthy req.query = false) :
    getFromCacheIfAny st now req = Except.ok (sendContent pqnfBody false) ∧
    pqnfBody = "\x7b\"errors\":[\x7b\"message\":\"PersistedQueryNotFound\"\x7d]\x7d" ∧
    Effect.write pqnfBody ∈ sendContent pqnfBody false ∧
    statusOf (sendContent pqnfBody false) = 200 ∧
    Effect.callNext ∉ sendContent pqnfBody false := by
  have h := gate_get_miss st now req pqv key hm hpq hpqt hkey hmiss
  rw [gateTail_noquery req (some pqv) hm (by simpa [jsTruthyOpt] using hpqt) hq] at h
  exact ⟨h, rfl, by simp [sendContent], rfl, by simp [sendContent]⟩

/-- Claim C8, witness: a descriptor-only GET against an empty store. -/
theorem claim8_persisted_query_not_found_witness :
    getFromCacheIfAny [] 0
      ⟨Method.get, none,
       some "\x7b\"persistedQuery\":\x7b\"version\":\"1\",\"sha256Hash\":\"abc\"\x7d\x7d"⟩ =
      Except.ok (sendContent pqnfBody false) ∧
    pqnfBody = "\x7b\"errors\":[\x7b\"message\":\"PersistedQueryNotFound\"\x7d]\x7d" ∧
    Effect.write pqnfBody ∈ sendContent pqnfBody false ∧
    statusOf (sendContent pqnfBody false) = 200 ∧
    Effect.callNext ∉ sendContent pqnfBody false :=
  claim8_persisted_query_not_found [] 0
    ⟨Method.get, none,
     some "\x7b\"persistedQuery\":\x7b\"version\":\"1\",\"sha256Hash\":\"abc\"\x7d\x7d"⟩
    (Json.obj [("version", Json.str "1"), ("sha256Hash", Json.str "abc")])
    "1.abc" rfl rfl rfl
    (by simp [extractCacheKey, jsMemberE, jsLookup, jsTemplate, jsTemplateVal]) rfl rfl

/-- Claim C9: on a string that parses as a JSON object, removeExtensions
re-serializes the object with exactly the top-level extensions key
deleted: the extensions key is absent from the result and every other
top-level key keeps its value. -/
theorem claim9_remove_extensions_frame (s : String) (fs : List (String × Json))
    (hparse : jsonParse s = some (Json.obj fs)) :
    removeExtensions s = Except.ok
      (jsonStringify (Json.obj (fs.filter (fun p => p.1 != "extensions")))) ∧
    jsLookup (fs.filter (fun p => p.1 != "extensions")) "extensions" = none ∧
    ∀ k, k ≠ "extensions" →
      jsLookup (fs.filter (fun p => p.1 != "extensions")) k = jsLookup fs k := by
  refine ⟨?_, jsLookup_filter_self fs, fun k hk => jsLookup_filter_other fs k hk⟩
  unfold removeExtensions
  rw [hparse]

/-- Claim C9, witness on a concrete object with an extensions field. -/
theorem claim9_remove_extensions_frame_witness :
    removeExtensions "\x7b\"a\":1,\"extensions\":2\x7d" = Except.ok
      (jsonStringify (Json.obj
        (([("a", Json.num 1), ("extensions", Json.num 2)]).filter
          (fun p => p.1 != "extensions")))) ∧
    jsLookup (([("a", Json.num 1), ("extensions", Json.num 2)]).filter
      (fun p => p.1 != "extensions")) "extensions" = none ∧
    jsLookup (([("a", Json.num 1), ("extensions", Json.num 2)]).filter
      (fun p => p.1 != "extensions")) "a" =
      jsLookup [("a", Json.num 1), ("extensions", Json.num 2)] "a" := by
  have h := claim9_remove_extensions_frame "\x7b\"a\":1,\"extensions\":2\x7d"
    [("a", Json.num 1), ("extensions", Json.num 2)] rfl
  exact ⟨h.1, h.2.1, h.2.2 "a" (by decide)⟩

/-- Claim C10, counterexample: the extensions string null parses as valid
JSON, yet getFromCacheIfAny neither writes a response nor calls next on
it: reading persistedQuery from null throws, so the middleware takes
neither of the two actions the claim allows. -/
theorem claim10_counterexample :
    jsonParse "null" = some Json.null ∧
    getFromCacheIfAny [] 0 cexNullExtReq = Except.error "TypeError" ∧
    ¬ ∃ effs, getFromCacheIfAny [] 0 cexNullExtReq = Except.ok effs ∧
        countEnds effs + countNexts effs = 1 ∧
        countWrites effs = countEnds effs := by
  refine ⟨rfl, rfl, ?_⟩
  rintro ⟨effs, he, _⟩
  rw [show getFromCacheIfAny [] 0 cexNullExtReq = Except.error "TypeError" from rfl] at he
  exact Except.noConfusion he

/-- Claim C10, amended: for every request whose extensions field, when
present and nonempty, parses as JSON other than null, over a store whose
values have the shape storeInCache writes, getFromCacheIfAny succeeds and
performs exactly one terminal action: exactly one end-of-response or
exactly one next call, with a write exactly when the response ends. -/
theorem claim10_exactly_one (st : Store) (now : Int) (req : Request)
    (hb : ExtensionsBenign req) (hw : WellFormedStore st) :
    ∃ effs, getFromCacheIfAny st now req = Except.ok effs ∧
      countEnds effs + countNexts effs = 1 ∧
      countWrites effs = countEnds effs :=
  gate_exactly_one st now req hb hw

/-- Claim C10, witness: the descriptor-free GET on the empty store. -/
theorem claim10_exactly_one_witness :
    ∃ effs, getFromCacheIfAny [] 0 ⟨Method.get, none, none⟩ = Except.ok effs ∧
      countEnds effs + countNexts effs = 1 ∧
      countWrites effs = countEnds effs :=
  claim10_exactly_one [] 0 ⟨Method.get, none, none⟩
    (fun _ h _ => Option.noConfusion h)
    (fun p hp => absurd hp (List.not_mem_nil p))

end Firegraph
